import Mathlib

/-!
Verification of the HA leader-election controller in `ha/lock.go`
(package `ha` of hashicorp-nomad-autoscaler).

The development has three parts:

1. an exact model of the binary64 (IEEE-754 double) arithmetic used by
   `NewHALockController` to derive `renewalPeriod` and `waitPeriod` from the
   configured lease (`time.Duration(float64(lease) * factor)`);

2. a semantics of the body of `Start` / `maintainLease` / `wait`
   (lines 50–128 of `lock.go`): the loop blocks at a fixed set of points
   (the startup jitter wait, the `Acquire` call, the renewal-ticker select,
   the post-lease-loss jitter wait, the retry-ticker select), and at each
   point the environment — the lock backend, the timers, and the governing
   context — supplies an answer.  A run consumes a list of answers and emits
   a trace of observable actions;

3. an interleaved system of several controller instances sharing one lock
   backend, used for the mutual-exclusion property.
-/

set_option maxRecDepth 100000

namespace HA

/-! ## Part 1: exact binary64 arithmetic

A positive binary64 value is represented as a pair `(s, e) : ℕ × ℤ` with
value `s * 2 ^ e`; rounding keeps 53 significand bits (round to nearest,
ties to even).  The exponent is unbounded, so the model agrees with real
binary64 on the whole normal (non-overflowing, non-subnormal) range, which
contains every value arising in `lock.go` for any `int64` lease.  All
executable arithmetic is on `ℕ`/`ℤ` so that the kernel can evaluate it;
`seVal` interprets a pair as the rational it denotes, for the proofs.
-/

/-- Fuel-driven floor of `log2` (the fuel only bounds the recursion depth,
so this reduces in `O(log n)` steps; written with a bare `Nat.rec` so the
kernel can evaluate it on large literals). -/
def lg2F (fuel : ℕ) : ℕ → ℕ :=
  Nat.rec (motive := fun _ => ℕ → ℕ) (fun _ => 0)
    (fun _ ih n => if 2 ≤ n then ih (n / 2) + 1 else 0) fuel

/-- `natLg n` is `⌊log₂ n⌋` for `n ≥ 1`. -/
def natLg (n : ℕ) : ℕ := lg2F n n

/-- `qexp num den` is `⌊log₂ (num/den)⌋` for positive `num`, `den`. -/
def qexp (num den : ℕ) : ℤ :=
  (natLg (num * 2 ^ (natLg den + 1) / den) : ℤ) - (natLg den + 1)

/-- The scaled fraction `(a, b)` with `a/b = (num/den) · 2^(52 - qexp)`,
so that `a/b` lies in `[2^52, 2^53)`. -/
def rndAB (num den : ℕ) : ℕ × ℕ :=
  if 0 ≤ qexp num den - 52 then (num, den * 2 ^ (qexp num den - 52).toNat)
  else (num * 2 ^ (-(qexp num den - 52)).toNat, den)

/-- Round the fraction `a/b` to the nearest integer, ties to even. -/
def rndS (a b : ℕ) : ℕ :=
  if 2 * (a % b) < b then a / b
  else if b < 2 * (a % b) then a / b + 1
  else if (a / b) % 2 = 0 then a / b else a / b + 1

/-- Round the positive rational `num/den` to the nearest binary64
(53-bit significand, round half to even), as a significand/exponent pair. -/
def rndPosSE (num den : ℕ) : ℕ × ℤ :=
  (rndS (rndAB num den).1 (rndAB num den).2, qexp num den - 52)

/-- The rational value denoted by a significand/exponent pair. -/
def seVal (x : ℕ × ℤ) : ℚ := (x.1 : ℚ) * (2 : ℚ) ^ x.2

/-- Go's conversion `float64(n)` of a non-negative integer. -/
def flNat (n : ℕ) : ℕ × ℤ := rndPosSE n 1

/-- Binary64 multiplication: the exact product of the two operands,
rounded to the nearest representable value. -/
def fmulSE (x y : ℕ × ℤ) : ℕ × ℤ :=
  if 0 ≤ x.2 + y.2 then rndPosSE (x.1 * y.1 * 2 ^ (x.2 + y.2).toNat) 1
  else rndPosSE (x.1 * y.1) (2 ^ (-(x.2 + y.2)).toNat)

/-- Truncation of a non-negative binary64 value to an integer
(Go's float64-to-`time.Duration` conversion truncates toward zero). -/
def truncSE (x : ℕ × ℤ) : ℕ :=
  if 0 ≤ x.2 then x.1 * 2 ^ x.2.toNat else x.1 / 2 ^ (-x.2).toNat

/-- `const renewalFactor = 0.7` (lock.go line 13): the binary64 value of the
literal `0.7`. -/
def renewalFactor : ℕ × ℤ := rndPosSE 7 10

/-- `const waitFactor = 1.1` (lock.go line 14): the binary64 value of the
literal `1.1`. -/
def waitFactor : ℕ × ℤ := rndPosSE 11 10

/-- `time.Duration(float64(lease) * f)` for an `int64` lease and a positive
binary64 constant `f`: convert the lease to binary64, multiply (rounding the
exact product), truncate toward zero.  Both conversions and the product are
sign-symmetric, so a negative lease is handled through its absolute value. -/
def durMul (lease : ℤ) (f : ℕ × ℤ) : ℤ :=
  if 0 ≤ lease then (truncSE (fmulSE (flNat lease.toNat) f) : ℤ)
  else -(truncSE (fmulSE (flNat (-lease).toNat) f) : ℤ)

/-- The controller record (lock.go lines 23–31).  The logger and the lock
backend are external collaborators and carry no state relevant to the
claims; durations are integer nanosecond counts (`time.Duration`). -/
structure HALockController where
  ID : String
  renewalPeriod : ℤ
  waitPeriod : ℤ
  randomDelay : ℤ
deriving DecidableEq

/-- `NewHALockController` (lock.go lines 33–48).  `id` stands for the
generated UUID (out of scope), `r` for the value drawn from the seeded
random source: `rand.Intn(100)` yields a uniform value in `[0,100)`,
modelled as `r % 100`.  `randomDelay` is that many milliseconds
(`time.Millisecond = 10^6` ns). -/
def NewHALockController (id : String) (r : ℕ) (lease : ℤ) : HALockController :=
  { ID := id
    renewalPeriod := durMul lease renewalFactor
    waitPeriod := durMul lease waitFactor
    randomDelay := (r % 100 : ℕ) * 1000000 }

/-! ### Specification lemmas for the binary64 model -/

theorem lg2F_zero (n : ℕ) : lg2F 0 n = 0 := rfl

theorem lg2F_succ (f n : ℕ) :
    lg2F (f + 1) n = if 2 ≤ n then lg2F f (n / 2) + 1 else 0 := rfl

theorem lg2F_spec : ∀ f n, 1 ≤ n → n ≤ f →
    2 ^ lg2F f n ≤ n ∧ n < 2 ^ (lg2F f n + 1) := by
  intro f
  induction f with
  | zero => intro n h1 h2; omega
  | succ f ih =>
    intro n h1 h2
    rw [lg2F_succ]
    by_cases h : 2 ≤ n
    · rw [if_pos h]
      have hd1 : 1 ≤ n / 2 := by omega
      have hd2 : n / 2 ≤ f := by omega
      obtain ⟨l, u⟩ := ih (n / 2) hd1 hd2
      constructor
      · calc 2 ^ (lg2F f (n / 2) + 1) = 2 * 2 ^ lg2F f (n / 2) := by ring
          _ ≤ 2 * (n / 2) := by omega
          _ ≤ n := by omega
      · calc n < 2 * (n / 2 + 1) := by omega
          _ ≤ 2 * 2 ^ (lg2F f (n / 2) + 1) := by omega
          _ = 2 ^ (lg2F f (n / 2) + 1 + 1) := by ring
    · rw [if_neg h]
      omega

theorem natLg_spec (n : ℕ) (h : 1 ≤ n) :
    2 ^ natLg n ≤ n ∧ n < 2 ^ (natLg n + 1) :=
  lg2F_spec n n h le_rfl

theorem natLg_unique (n j : ℕ) (hl : 2 ^ j ≤ n) (hu : n < 2 ^ (j + 1)) :
    natLg n = j := by
  have h1 : 1 ≤ n := le_trans (Nat.one_le_two_pow) hl
  obtain ⟨l, u⟩ := natLg_spec n h1
  rcases Nat.lt_trichotomy (natLg n) j with h | h | h
  · exfalso
    have : 2 ^ (natLg n + 1) ≤ 2 ^ j := Nat.pow_le_pow_right (by omega) (by omega)
    omega
  · exact h
  · exfalso
    have : 2 ^ (j + 1) ≤ 2 ^ natLg n := Nat.pow_le_pow_right (by omega) (by omega)
    omega

theorem two_zpow_pos (e : ℤ) : (0 : ℚ) < 2 ^ e := zpow_pos (by norm_num) e

theorem qexp_spec (num den : ℕ) (hn : 1 ≤ num) (hd : 1 ≤ den) :
    (2 : ℚ) ^ qexp num den ≤ (num : ℚ) / den ∧
    (num : ℚ) / den < 2 ^ (qexp num den + 1) := by
  set B : ℕ := natLg den + 1 with hB
  set M : ℕ := num * 2 ^ B / den with hM
  have hdenB : den < 2 ^ B := (natLg_spec den hd).2
  have hM1 : 1 ≤ M := by
    rw [hM]
    rw [Nat.le_div_iff_mul_le (by omega)]
    calc 1 * den = den := by ring
      _ ≤ 2 ^ B := by omega
      _ ≤ num * 2 ^ B := Nat.le_mul_of_pos_left _ (by omega)
  obtain ⟨hkl, hku⟩ := natLg_spec M hM1
  set k : ℕ := natLg M with hk
  have hqe : qexp num den = (k : ℤ) - (B : ℤ) := rfl
  have hlow : 2 ^ k * den ≤ num * 2 ^ B := by
    calc 2 ^ k * den ≤ M * den := Nat.mul_le_mul_right den hkl
      _ ≤ num * 2 ^ B := by rw [hM]; exact Nat.div_mul_le_self _ _
  have hhigh : num * 2 ^ B < 2 ^ (k + 1) * den := by
    have hmod : (num * 2 ^ B) % den < den := Nat.mod_lt _ (by omega)
    calc num * 2 ^ B = den * M + (num * 2 ^ B) % den := by
          rw [hM]; exact (Nat.div_add_mod _ _).symm
      _ < den * M + den := by omega
      _ = (M + 1) * den := by ring
      _ ≤ 2 ^ (k + 1) * den := Nat.mul_le_mul_right den hku
  have hden0 : (0 : ℚ) < (den : ℚ) := by exact_mod_cast hd
  have h2B : (0 : ℚ) < (2 : ℚ) ^ (B : ℕ) := by positivity
  have hzB : (2 : ℚ) ^ ((B : ℕ) : ℤ) = (2 : ℚ) ^ (B : ℕ) := zpow_natCast 2 B
  have hzk : (2 : ℚ) ^ ((k : ℕ) : ℤ) = (2 : ℚ) ^ (k : ℕ) := zpow_natCast 2 k
  constructor
  · rw [hqe]
    rw [zpow_sub₀ (by norm_num), hzB, hzk]
    rw [div_le_div_iff h2B hden0]
    calc (2 : ℚ) ^ (k : ℕ) * den = ((2 ^ k * den : ℕ) : ℚ) := by push_cast; ring
      _ ≤ ((num * 2 ^ B : ℕ) : ℚ) := by exact_mod_cast hlow
      _ = (num : ℚ) * 2 ^ (B : ℕ) := by push_cast; ring
  · rw [hqe]
    have : qexp num den + 1 = ((k + 1 : ℕ) : ℤ) - (B : ℤ) := by
      rw [hqe]; push_cast; ring
    rw [hqe] at this
    rw [show (k : ℤ) - (B : ℤ) + 1 = ((k + 1 : ℕ) : ℤ) - (B : ℤ) by push_cast; ring]
    rw [zpow_sub₀ (by norm_num), hzB, zpow_natCast]
    rw [div_lt_div_iff hden0 h2B]
    calc (num : ℚ) * 2 ^ (B : ℕ) = ((num * 2 ^ B : ℕ) : ℚ) := by push_cast; ring
      _ < ((2 ^ (k + 1) * den : ℕ) : ℚ) := by exact_mod_cast hhigh
      _ = (2 : ℚ) ^ (k + 1 : ℕ) * den := by push_cast; ring

theorem rndS_bounds (a b : ℕ) (hb : 1 ≤ b) :
    2 * rndS a b * b ≤ 2 * a + b ∧ 2 * a ≤ 2 * rndS a b * b + b := by
  have hdm : b * (a / b) + a % b = a := Nat.div_add_mod a b
  have hmod : a % b < b := Nat.mod_lt _ (by omega)
  have e1 : 2 * (a / b) * b + 2 * (a % b) = 2 * a := by
    calc 2 * (a / b) * b + 2 * (a % b) = 2 * (b * (a / b) + a % b) := by ring
      _ = 2 * a := by rw [hdm]
  have up0 : 2 * (a / b) * b ≤ 2 * a + b :=
    le_trans (Nat.le.intro e1) (Nat.le_add_right _ _)
  have up1 : b ≤ 2 * (a % b) → 2 * (a / b + 1) * b ≤ 2 * a + b := by
    intro hble
    calc 2 * (a / b + 1) * b = 2 * (a / b) * b + 2 * b := by ring
      _ ≤ 2 * (a / b) * b + (2 * (a % b) + b) := by omega
      _ = 2 * (a / b) * b + 2 * (a % b) + b := by ring
      _ = 2 * a + b := by rw [e1]
  have lo0 : 2 * (a % b) ≤ b → 2 * a ≤ 2 * (a / b) * b + b := by
    intro hle
    calc 2 * a = 2 * (a / b) * b + 2 * (a % b) := e1.symm
      _ ≤ 2 * (a / b) * b + b := by omega
  have lo1 : 2 * a ≤ 2 * (a / b + 1) * b + b := by
    calc 2 * a = 2 * (a / b) * b + 2 * (a % b) := e1.symm
      _ ≤ 2 * (a / b) * b + 2 * b + b := by omega
      _ = 2 * (a / b + 1) * b + b := by ring
  unfold rndS
  split_ifs with h1 h2 h3
  · exact ⟨up0, lo0 (by omega)⟩
  · exact ⟨up1 (by omega), lo1⟩
  · exact ⟨up0, lo0 (by omega)⟩
  · exact ⟨up1 (by omega), lo1⟩

theorem rndAB_den_pos (num den : ℕ) (hd : 1 ≤ den) : 1 ≤ (rndAB num den).2 := by
  unfold rndAB
  split_ifs
  · exact Nat.mul_pos hd (Nat.two_pow_pos _)
  · exact hd

theorem rndAB_val (num den : ℕ) (hd : 1 ≤ den) :
    ((rndAB num den).1 : ℚ) =
      ((rndAB num den).2 : ℚ) * ((num : ℚ) / den) * (2 : ℚ) ^ (52 - qexp num den) := by
  have hden0 : (den : ℚ) ≠ 0 := by
    have : (0 : ℚ) < den := by exact_mod_cast hd
    exact ne_of_gt this
  have h52 : 52 - qexp num den = -(qexp num den - 52) := by omega
  rw [h52]
  unfold rndAB
  split_ifs with h
  · have htn : (((qexp num den - 52).toNat : ℕ) : ℤ) = qexp num den - 52 :=
      Int.toNat_of_nonneg h
    have hz : (2 : ℚ) ^ ((qexp num den - 52).toNat : ℕ) = (2 : ℚ) ^ (qexp num den - 52) := by
      rw [← zpow_natCast, htn]
    have hz0 : (2 : ℚ) ^ (qexp num den - 52) ≠ 0 := ne_of_gt (two_zpow_pos _)
    simp only [zpow_neg]
    push_cast
    rw [hz]
    field_simp
  · have hnn : 0 ≤ -(qexp num den - 52) := by omega
    have htn : (((-(qexp num den - 52)).toNat : ℕ) : ℤ) = -(qexp num den - 52) :=
      Int.toNat_of_nonneg hnn
    have hz : (2 : ℚ) ^ ((-(qexp num den - 52)).toNat : ℕ) =
        (2 : ℚ) ^ (-(qexp num den - 52)) := by
      rw [← zpow_natCast, htn]
    push_cast
    rw [hz]
    field_simp

theorem seVal_nonneg (x : ℕ × ℤ) : 0 ≤ seVal x := by
  unfold seVal
  positivity

theorem rndPosSE_bounds (num den : ℕ) (hn : 1 ≤ num) (hd : 1 ≤ den) :
    (num : ℚ) / den * (1 - 1 / 2 ^ 53) ≤ seVal (rndPosSE num den) ∧
    seVal (rndPosSE num den) ≤ (num : ℚ) / den * (1 + 1 / 2 ^ 53) := by
  have hnum0 : (0 : ℚ) < num := by exact_mod_cast hn
  have hden0 : (0 : ℚ) < den := by exact_mod_cast hd
  obtain ⟨hq1, hq2⟩ := qexp_spec num den hn hd
  have hbpos : 1 ≤ (rndAB num den).2 := rndAB_den_pos num den hd
  have hab : ((rndAB num den).1 : ℚ) =
      ((rndAB num den).2 : ℚ) * ((num : ℚ) / den) * (2 : ℚ) ^ (52 - qexp num den) :=
    rndAB_val num den hd
  obtain ⟨hs1, hs2⟩ := rndS_bounds (rndAB num den).1 (rndAB num den).2 hbpos
  have hval : seVal (rndPosSE num den) =
      (rndS (rndAB num den).1 (rndAB num den).2 : ℚ) * 2 ^ (qexp num den - 52) := by
    simp only [rndPosSE, seVal]
  set x : ℚ := (num : ℚ) / den with hx
  have hx0 : 0 < x := div_pos hnum0 hden0
  set E : ℤ := qexp num den with hE
  set a : ℕ := (rndAB num den).1 with ha
  set b : ℕ := (rndAB num den).2 with hb
  set s : ℕ := rndS a b with hs
  have hb0 : (0 : ℚ) < b := by exact_mod_cast hbpos
  have hs1q : 2 * (s : ℚ) * b ≤ 2 * a + b := by exact_mod_cast hs1
  have hs2q : 2 * (a : ℚ) ≤ 2 * (s : ℚ) * b + b := by exact_mod_cast hs2
  set t : ℚ := (2 : ℚ) ^ (E - 52) with ht
  set u : ℚ := (2 : ℚ) ^ (52 - E) with hu
  have ht0 : 0 < t := two_zpow_pos _
  have hu0 : 0 < u := two_zpow_pos _
  have htu : t * u = 1 := by
    rw [ht, hu, ← zpow_add₀ (two_ne_zero (α := ℚ))]
    norm_num
  have hE0 : 0 < (2 : ℚ) ^ E := two_zpow_pos _
  have ht2 : t * 2 ^ 53 = (2 : ℚ) ^ E * 2 := by
    rw [ht, zpow_sub₀ (two_ne_zero (α := ℚ))]
    have h52 : (2 : ℚ) ^ (52 : ℤ) = (2 : ℚ) ^ (52 : ℕ) := by
      norm_num
    rw [h52]
    field_simp
    ring
  have hthalf : t / 2 ≤ x / 2 ^ 53 := by
    rw [div_le_div_iff (by norm_num) (by positivity)]
    calc t * 2 ^ 53 = (2 : ℚ) ^ E * 2 := ht2
      _ ≤ x * 2 := by linarith [hq1]
  -- upper bound
  have hup : (s : ℚ) * t ≤ x + t / 2 := by
    have h1 : 2 * (s : ℚ) * b ≤ 2 * (b * x * u) + b := by rw [← hab]; exact hs1q
    have h2 : 2 * (s : ℚ) ≤ 2 * (x * u) + 1 := by
      rw [← mul_le_mul_right hb0]
      calc 2 * (s : ℚ) * b ≤ 2 * (b * x * u) + b := h1
        _ = (2 * (x * u) + 1) * b := by ring
    have h3 : 2 * (s : ℚ) * t ≤ (2 * (x * u) + 1) * t :=
      mul_le_mul_of_nonneg_right h2 (le_of_lt ht0)
    have h4 : (2 * (x * u) + 1) * t = 2 * x * (t * u) + t := by ring
    rw [h4, htu] at h3
    linarith [h3]
  have hlow : x - t / 2 ≤ (s : ℚ) * t := by
    have h1 : 2 * ((b : ℚ) * x * u) ≤ 2 * (s : ℚ) * b + b := by rw [← hab]; exact hs2q
    have h2 : 2 * (x * u) ≤ 2 * (s : ℚ) + 1 := by
      rw [← mul_le_mul_right hb0]
      calc 2 * (x * u) * b = 2 * ((b : ℚ) * x * u) := by ring
        _ ≤ 2 * (s : ℚ) * b + b := h1
        _ = (2 * (s : ℚ) + 1) * b := by ring
    have h3 : (2 * (x * u)) * t ≤ (2 * (s : ℚ) + 1) * t :=
      mul_le_mul_of_nonneg_right h2 (le_of_lt ht0)
    have h4 : (2 * (x * u)) * t = 2 * x * (t * u) := by ring
    rw [h4, htu] at h3
    linarith [h3]
  rw [hval]
  constructor
  · have : x - x / 2 ^ 53 ≤ x - t / 2 := by linarith [hthalf]
    have hcomb : x - x / 2 ^ 53 ≤ (s : ℚ) * t := le_trans this hlow
    calc x * (1 - 1 / 2 ^ 53) = x - x / 2 ^ 53 := by ring
      _ ≤ (s : ℚ) * t := hcomb
  · have hcomb : (s : ℚ) * t ≤ x + x / 2 ^ 53 := le_trans hup (by linarith [hthalf])
    calc (s : ℚ) * t ≤ x + x / 2 ^ 53 := hcomb
      _ = x * (1 + 1 / 2 ^ 53) := by ring

theorem rndS_one (a : ℕ) : rndS a 1 = a := by
  unfold rndS
  simp [Nat.mod_one, Nat.div_one]

theorem flNat_exact (n : ℕ) (h : n ≤ 2 ^ 53) : seVal (flNat n) = n := by
  rcases Nat.eq_zero_or_pos n with h0 | hpos
  · subst h0
    have hz : flNat 0 = (0, -53) := by decide
    rw [hz]
    simp [seVal]
  · obtain ⟨hl, hu⟩ := natLg_spec n hpos
    have hq : qexp n 1 = (natLg n : ℤ) := by
      have hB : natLg 1 = 0 := by decide
      have h2 : n * 2 ^ (natLg 1 + 1) / 1 = 2 * n := by
        rw [hB]
        omega
      have h2n : natLg (2 * n) = natLg n + 1 := by
        apply natLg_unique
        · rw [pow_succ]
          omega
        · rw [pow_succ, pow_succ]
          omega
      unfold qexp
      rw [h2, h2n, hB]
      push_cast
      ring
    rcases Nat.lt_or_ge (natLg n) 52 with hk | hk
    · -- small n: the else branch of rndAB, exponent below zero
      have hneg : ¬ 0 ≤ qexp n 1 - 52 := by rw [hq]; omega
      have hab : rndAB n 1 = (n * 2 ^ (52 - natLg n), 1) := by
        unfold rndAB
        rw [if_neg hneg]
        have : (-(qexp n 1 - 52)).toNat = 52 - natLg n := by rw [hq]; omega
        rw [this]
      have hsv : seVal (rndPosSE n 1) =
          ((rndS (rndAB n 1).1 (rndAB n 1).2 : ℕ) : ℚ) * 2 ^ (qexp n 1 - 52) := by
        simp only [rndPosSE, seVal]
      unfold flNat
      rw [hsv, hab]
      simp only [rndS_one]
      have hzp : (2 : ℚ) ^ (qexp n 1 - 52) = ((2 : ℚ) ^ (52 - natLg n : ℕ))⁻¹ := by
        rw [hq]
        have hxy : (natLg n : ℤ) - 52 = -((52 - natLg n : ℕ) : ℤ) := by omega
        rw [hxy, zpow_neg, zpow_natCast]
      rw [hzp]
      push_cast
      have hne : ((2 : ℚ) ^ (52 - natLg n : ℕ)) ≠ 0 := by positivity
      field_simp
    · rcases Nat.lt_or_ge (natLg n) 53 with hk53 | hk53
      · -- natLg n = 52: the then branch with exponent zero
        have h52 : natLg n = 52 := by omega
        have hpos0 : (0 : ℤ) ≤ qexp n 1 - 52 := by rw [hq, h52]; omega
        have hab : rndAB n 1 = (n, 1) := by
          unfold rndAB
          rw [if_pos hpos0]
          have : (qexp n 1 - 52).toNat = 0 := by
            rw [hq, h52]
            norm_num
          rw [this]
          norm_num
        have hsv : seVal (rndPosSE n 1) =
            ((rndS (rndAB n 1).1 (rndAB n 1).2 : ℕ) : ℚ) * 2 ^ (qexp n 1 - 52) := by
          simp only [rndPosSE, seVal]
        unfold flNat
        rw [hsv, hab]
        simp only [rndS_one]
        rw [hq, h52]
        norm_num
      · -- natLg n = 53 forces n = 2^53
        have h53 : natLg n = 53 := by
          have : 2 ^ natLg n ≤ 2 ^ 53 := le_trans hl h
          have hle : natLg n ≤ 53 := by
            by_contra hcon
            have : 2 ^ 54 ≤ 2 ^ natLg n := Nat.pow_le_pow_right (by omega) (by omega)
            omega
          omega
        have hn53 : n = 2 ^ 53 := by
          have := hl
          rw [h53] at this
          omega
        subst hn53
        have hv : flNat (2 ^ 53) = (2 ^ 52, 1) := by decide
        rw [hv]
        unfold seVal
        norm_num

theorem seVal_fst_pos (x : ℕ × ℤ) (h : 1 ≤ x.1) : 0 < seVal x := by
  unfold seVal
  have h0 : (0 : ℚ) < x.1 := by exact_mod_cast h
  exact mul_pos h0 (two_zpow_pos _)

theorem fst_pos_of_seVal_pos (x : ℕ × ℤ) (h : 0 < seVal x) : 1 ≤ x.1 := by
  by_contra hcon
  have hx0 : x.1 = 0 := by omega
  unfold seVal at h
  rw [hx0] at h
  simp at h

theorem fmulSE_bounds (x y : ℕ × ℤ) (hx : 1 ≤ x.1) (hy : 1 ≤ y.1) :
    seVal x * seVal y * (1 - 1 / 2 ^ 53) ≤ seVal (fmulSE x y) ∧
    seVal (fmulSE x y) ≤ seVal x * seVal y * (1 + 1 / 2 ^ 53) := by
  unfold fmulSE
  split_ifs with h
  · have hm1 : 1 ≤ x.1 * y.1 * 2 ^ (x.2 + y.2).toNat :=
      Nat.one_le_iff_ne_zero.mpr (by positivity)
    have hb := rndPosSE_bounds (x.1 * y.1 * 2 ^ (x.2 + y.2).toNat) 1 hm1 le_rfl
    have hid : ((x.1 * y.1 * 2 ^ (x.2 + y.2).toNat : ℕ) : ℚ) / (1 : ℕ) =
        seVal x * seVal y := by
      have htn : (2 : ℚ) ^ ((x.2 + y.2).toNat : ℕ) = (2 : ℚ) ^ (x.2 + y.2) := by
        rw [← zpow_natCast, Int.toNat_of_nonneg h]
      unfold seVal
      push_cast
      rw [htn, zpow_add₀ (two_ne_zero (α := ℚ))]
      ring
    rw [hid] at hb
    exact hb
  · have hm1 : 1 ≤ x.1 * y.1 := Nat.one_le_iff_ne_zero.mpr (by positivity)
    have hd1 : 1 ≤ 2 ^ (-(x.2 + y.2)).toNat := Nat.one_le_two_pow
    have hb := rndPosSE_bounds (x.1 * y.1) (2 ^ (-(x.2 + y.2)).toNat) hm1 hd1
    have hid : ((x.1 * y.1 : ℕ) : ℚ) / ((2 ^ (-(x.2 + y.2)).toNat : ℕ) : ℚ) =
        seVal x * seVal y := by
      have htn : (2 : ℚ) ^ ((-(x.2 + y.2)).toNat : ℕ) = (2 : ℚ) ^ (-(x.2 + y.2)) := by
        rw [← zpow_natCast, Int.toNat_of_nonneg (by omega)]
      unfold seVal
      push_cast
      rw [htn, zpow_neg, div_eq_mul_inv, inv_inv]
      rw [zpow_add₀ (two_ne_zero (α := ℚ))]
      ring
    rw [hid] at hb
    exact hb

theorem truncSE_floor (x : ℕ × ℤ) : (truncSE x : ℤ) = ⌊seVal x⌋ := by
  unfold truncSE seVal
  split_ifs with h
  · have htn : (2 : ℚ) ^ (x.2 : ℤ) = ((2 ^ x.2.toNat : ℕ) : ℚ) := by
      push_cast
      rw [← zpow_natCast, Int.toNat_of_nonneg h]
    rw [htn]
    rw [show (x.1 : ℚ) * ((2 ^ x.2.toNat : ℕ) : ℚ) = ((x.1 * 2 ^ x.2.toNat : ℕ) : ℚ) by
      push_cast; ring]
    rw [Int.floor_natCast]
  · set k : ℕ := (-x.2).toNat with hk
    have htn : (2 : ℚ) ^ (x.2 : ℤ) = (((2 ^ k : ℕ) : ℚ))⁻¹ := by
      have h1 : ((2 ^ k : ℕ) : ℚ) = (2 : ℚ) ^ ((k : ℕ) : ℤ) := by
        rw [zpow_natCast]
        push_cast
        ring
      rw [h1, show ((k : ℕ) : ℤ) = -x.2 by rw [hk]; omega, zpow_neg, inv_inv]
    rw [htn, ← div_eq_mul_inv]
    have h2k : (0 : ℚ) < ((2 ^ k : ℕ) : ℚ) := by positivity
    symm
    rw [Int.floor_eq_iff]
    constructor
    · rw [le_div_iff h2k]
      have hdl : (x.1 / 2 ^ k) * 2 ^ k ≤ x.1 := Nat.div_mul_le_self _ _
      exact_mod_cast hdl
    · rw [div_lt_iff h2k]
      have hdu : x.1 < (x.1 / 2 ^ k + 1) * 2 ^ k := by
        have hdm := Nat.div_add_mod x.1 (2 ^ k)
        have hmod : x.1 % 2 ^ k < 2 ^ k := Nat.mod_lt _ (by positivity)
        calc x.1 = 2 ^ k * (x.1 / 2 ^ k) + x.1 % 2 ^ k := hdm.symm
          _ < 2 ^ k * (x.1 / 2 ^ k) + 2 ^ k := Nat.add_lt_add_left hmod _
          _ = (x.1 / 2 ^ k + 1) * 2 ^ k := by ring
      exact_mod_cast hdu

theorem durMul_nonneg (L : ℤ) (hL : 0 ≤ L) (f : ℕ × ℤ) :
    durMul L f = ⌊seVal (fmulSE (flNat L.toNat) f)⌋ := by
  unfold durMul
  rw [if_pos hL]
  exact truncSE_floor _

theorem renewalFactor_bound : seVal renewalFactor * (1 + 1 / 2 ^ 53) < 1 := by
  have h : renewalFactor = (6305039478318694, -53) := by decide
  rw [h]
  unfold seVal
  rw [show ((-53 : ℤ)) = -((53 : ℕ) : ℤ) by norm_num, zpow_neg, zpow_natCast]
  norm_num

theorem waitFactor_bound : (11 : ℚ) / 10 ≤ seVal waitFactor := by
  have h : waitFactor = (4953959590107546, -52) := by decide
  rw [h]
  show (11 : ℚ) / 10 ≤ (4953959590107546 : ℚ) * (2 : ℚ) ^ (-52 : ℤ)
  rw [show ((-52 : ℤ)) = -((52 : ℕ) : ℤ) by norm_num, zpow_neg, zpow_natCast]
  rw [div_le_iff (by norm_num)]
  have hrw : (4953959590107546 : ℚ) * ((2 : ℚ) ^ (52 : ℕ))⁻¹ * 10 =
      4953959590107546 * 10 / 2 ^ 52 := by
    ring
  rw [hrw, le_div_iff (by positivity)]
  norm_num

example : renewalFactor = (6305039478318694, -53) := by decide
example : waitFactor = (4953959590107546, -52) := by decide
example : (NewHALockController "" 0 10000000).renewalPeriod = 7000000 := by decide
example : (NewHALockController "" 0 10000000).waitPeriod = 11000000 := by decide
example : (NewHALockController "" 0 2570).renewalPeriod = 1798 := by decide
example : (NewHALockController "" 0 1).waitPeriod = 1 := by decide
example : (NewHALockController "" 0 10).renewalPeriod = 7 := by decide
example : (NewHALockController "" 0 10).waitPeriod = 11 := by decide
example : (NewHALockController "" 0 0).waitPeriod = 0 := by decide
example : (NewHALockController "" 0 1).renewalPeriod = 0 := by decide

/-! ### Claims about the timing policy -/

/-- C8 counterexample: `NewHALockController` does not set `renewalPeriod` to
`0.7·L`.  For the lease `L = 2570` ns, `0.7·L` is exactly `1799` ns, but
`time.Duration(float64(2570) * 0.7)` is `1798` ns: the binary64 value of the
literal `0.7` is slightly below `7/10`, the product `2570 * 0.7` rounds to
just below `1799`, and the conversion truncates. -/
theorem claim_C8_counterexample :
    (NewHALockController "hac1" 7 2570).renewalPeriod = 1798 ∧
    (7 : ℚ) / 10 * 2570 = 1799 := by
  constructor
  · decide
  · norm_num

/-- C8 (amended): for every lease duration `L`, `NewHALockController` sets
`renewalPeriod` to `time.Duration(float64(L) * 0.7)` and `waitPeriod` to
`time.Duration(float64(L) * 1.1)` — the binary64 products with the fixed
factors 0.7 and 1.1, truncated toward zero, which can differ from the exact
products `0.7·L` / `1.1·L` — and draws `randomDelay` once, at construction,
as a whole number of milliseconds in the uniform range `[0, 100)` ms; the
record fields are never mutated afterwards (lock.go lines 33–48, and the
loop in `Start` only reads them). -/
theorem claim_C8 (id : String) (r : ℕ) (lease : ℤ) :
    (NewHALockController id r lease).renewalPeriod = durMul lease renewalFactor ∧
    (NewHALockController id r lease).waitPeriod = durMul lease waitFactor ∧
    (NewHALockController id r lease).randomDelay = ((r % 100 : ℕ) : ℤ) * 1000000 ∧
    0 ≤ (NewHALockController id r lease).randomDelay ∧
    (NewHALockController id r lease).randomDelay < 100 * 1000000 ∧
    (NewHALockController id r lease).randomDelay % 1000000 = 0 := by
  refine ⟨rfl, rfl, rfl, ?_, ?_, ?_⟩
  · show (0 : ℤ) ≤ ((r % 100 : ℕ) : ℤ) * 1000000
    positivity
  · show ((r % 100 : ℕ) : ℤ) * 1000000 < 100 * 1000000
    have h : r % 100 < 100 := Nat.mod_lt r (by norm_num)
    omega
  · show ((r % 100 : ℕ) : ℤ) * 1000000 % 1000000 = 0
    exact Int.mul_emod_left _ _

/-- C9 counterexample: for the positive lease `L = 1` ns the invariant
`renewalPeriod < L < waitPeriod` fails: `waitPeriod = ⌊1.1⌋ = 1 = L`. -/
theorem claim_C9_counterexample :
    (NewHALockController "hac1" 0 1).waitPeriod = 1 ∧
    ¬ (1 : ℤ) < (NewHALockController "hac1" 0 1).waitPeriod := by
  constructor
  · decide
  · decide

/-- C9 (amended): the invariant `renewalPeriod < L < waitPeriod` holds for
every lease of at least 10 ns (and at most 2^53 ns, the range on which
`float64` is exact on integers), but not for every positive lease: for
`1 ≤ L ≤ 9` ns truncation gives `waitPeriod = ⌊1.1·L⌋ = L`.  In particular
it holds for the 10 ms lease of the test suite. -/
theorem claim_C9 (id : String) (r : ℕ) (L : ℤ) (h10 : 10 ≤ L) (h53 : L ≤ 2 ^ 53) :
    (NewHALockController id r L).renewalPeriod < L ∧
    L < (NewHALockController id r L).waitPeriod := by
  have hL0 : (0 : ℤ) ≤ L := by omega
  have hLpos : (0 : ℚ) < (L : ℚ) := by
    have : (0 : ℤ) < L := by omega
    exact_mod_cast this
  have hfl : seVal (flNat L.toNat) = (L : ℚ) := by
    rw [flNat_exact L.toNat (by omega)]
    exact_mod_cast Int.toNat_of_nonneg hL0
  have hfl1 : 1 ≤ (flNat L.toNat).1 :=
    fst_pos_of_seVal_pos _ (by rw [hfl]; exact hLpos)
  constructor
  · show durMul L renewalFactor < L
    rw [durMul_nonneg L hL0]
    obtain ⟨_, hub⟩ := fmulSE_bounds (flNat L.toNat) renewalFactor hfl1 (by decide)
    rw [hfl] at hub
    rw [Int.floor_lt]
    calc seVal (fmulSE (flNat L.toNat) renewalFactor)
        ≤ (L : ℚ) * seVal renewalFactor * (1 + 1 / 2 ^ 53) := hub
      _ = (L : ℚ) * (seVal renewalFactor * (1 + 1 / 2 ^ 53)) := by ring
      _ < (L : ℚ) * 1 := mul_lt_mul_of_pos_left renewalFactor_bound hLpos
      _ = ((L : ℤ) : ℚ) := by ring
  · rcases eq_or_lt_of_le h10 with hEq | h11
    · have hL10 : L = 10 := hEq.symm
      subst hL10
      show (10 : ℤ) < durMul 10 waitFactor
      decide
    · show (L : ℤ) < durMul L waitFactor
      rw [durMul_nonneg L hL0, Int.lt_iff_add_one_le, Int.le_floor]
      obtain ⟨hlb, _⟩ := fmulSE_bounds (flNat L.toNat) waitFactor hfl1 (by decide)
      rw [hfl] at hlb
      have hLq : (11 : ℚ) ≤ (L : ℚ) := by exact_mod_cast h11
      have hstep : (L : ℚ) * (11 / 10) * (1 - 1 / 2 ^ 53) ≤
          (L : ℚ) * seVal waitFactor * (1 - 1 / 2 ^ 53) := by
        have h1 : (L : ℚ) * (11 / 10) ≤ (L : ℚ) * seVal waitFactor :=
          mul_le_mul_of_nonneg_left waitFactor_bound (le_of_lt hLpos)
        exact mul_le_mul_of_nonneg_right h1 (by norm_num)
      have hstep2 : (L : ℚ) + 1 ≤ (L : ℚ) * (11 / 10) * (1 - 1 / 2 ^ 53) := by
        linarith [hLq]
      calc ((L + 1 : ℤ) : ℚ) = (L : ℚ) + 1 := by push_cast; ring
        _ ≤ (L : ℚ) * seVal waitFactor * (1 - 1 / 2 ^ 53) := by linarith
        _ ≤ seVal (fmulSE (flNat L.toNat) waitFactor) := hlb

/-- C9 witness: the invariant at the test-suite lease of 10 ms. -/
theorem claim_C9_witness :
    (NewHALockController "hac1" 0 10000000).renewalPeriod < 10000000 ∧
    (10000000 : ℤ) < (NewHALockController "hac1" 0 10000000).waitPeriod :=
  claim_C9 "hac1" 0 10000000 (by norm_num) (by norm_num)

/-! ## Part 2: semantics of `Start` / `maintainLease` / `wait`

The body of `Start` (lock.go lines 50–99) blocks at five kinds of points:
the startup jitter wait (line 55), the `Acquire` call (line 62), the
renewal-ticker select inside `maintainLease` (lines 104–113), the
post-lease-loss jitter wait (line 86), and the retry-ticker select
(lines 91–97).  `Ans` is what the environment — lock backend, timers and
the governing context — supplies at one such point; a run consumes a list
of answers.  `Act` records the observable actions the controller performs.
`time.NewTicker` panics when its period is not positive; the model enters
`Phase.panicked` exactly where the code would create such a ticker
(line 57 and lines 88–89 for `waitPeriod`, line 102 for `renewalPeriod`).
-/

/-- An environment answer at one blocking point of the loop. -/
inductive Ans
  /-- A jitter wait (`wait`, lines 120–128): `ctx.Done()` fired first. -/
  | waitCtx
  /-- A jitter wait: the `randomDelay` timer fired first. -/
  | waitTimer
  /-- The result `(tok, err)` of the `lock.Acquire` call (line 62). -/
  | acq (tok : String) (err : Option String)
  /-- Retry select (lines 91–97): `ctx.Done()` fired, `return nil`. -/
  | tickCtx
  /-- Retry select: the freshly created `waitPeriod` ticker fired. -/
  | tickFire
  /-- Renewal select (lines 104–113): `ctx.Done()` fired, return `nil`. -/
  | renewCtx
  /-- Renewal select: the `renewalPeriod` ticker fired and `lock.Renew`
  returned `err`. -/
  | renewFire (err : Option String)
deriving DecidableEq

/-- An observable action of the controller. -/
inductive Act
  /-- Completed the `randomDelay` jitter wait (timer fired). -/
  | jitterWait
  /-- A jitter wait unblocked because the governing context was canceled. -/
  | jitterCanceled
  /-- Called `lock.Acquire` (line 62). -/
  | acquireCall
  /-- Started the protected function (`go protectedFunc(funcCtx)`, line 76). -/
  | startTask
  /-- Called `lock.Renew` (line 110). -/
  | renewCall
  /-- The renewal select observed `ctx.Done()` (line 105). -/
  | renewCanceled
  /-- Called `cancel()` on the task context after a lost lease (line 83). -/
  | cancelTask
  /-- Completed one full, freshly started `waitPeriod` tick (line 96). -/
  | retryWait
  /-- The retry select observed `ctx.Done()` and `Start` returned (line 92). -/
  | retryCanceled
deriving DecidableEq

/-- Where the controller is blocked (or how it ended). -/
inductive Phase
  /-- In the startup jitter wait (line 55). -/
  | initJitter
  /-- About to call `lock.Acquire` (top of the loop, line 62). -/
  | attempting
  /-- Holding the lock, inside the `maintainLease` select: the claim's
  `Leading` window, from a successful non-empty `Acquire` to the end of the
  lease-maintenance sub-loop. -/
  | leading
  /-- In the post-lease-loss jitter wait (line 86). -/
  | lossJitter
  /-- In the retry select on the freshly created `waitPeriod` ticker. -/
  | retrying
  /-- `Start` returned with the given value (`return nil` is the only
  return statement, line 94). -/
  | stopped (ret : Option String)
  /-- `time.NewTicker` panicked on a non-positive period. -/
  | panicked
deriving DecidableEq

/-- One transition of the body of `Start` (lock.go lines 50–99) from a
blocking point, given the environment's answer.  `none` means the answer is
not of the kind this phase consumes (no transition).  Transitions into
`retrying` re-create the `waitPeriod` ticker (lines 88–89) and therefore
panic when `waitPeriod ≤ 0`, exactly like the creation at line 57. -/
def startStep (hc : HALockController) : Phase → Ans → Option (Phase × List Act)
  | .initJitter, .waitCtx =>
      some (if hc.waitPeriod ≤ 0 then .panicked else .attempting, [.jitterCanceled])
  | .initJitter, .waitTimer =>
      some (if hc.waitPeriod ≤ 0 then .panicked else .attempting, [.jitterWait])
  | .attempting, .acq tok _ =>
      if tok = "" then
        some (if hc.waitPeriod ≤ 0 then .panicked else .retrying, [.acquireCall])
      else if hc.renewalPeriod ≤ 0 then some (.panicked, [.acquireCall, .startTask])
      else some (.leading, [.acquireCall, .startTask])
  | .leading, .renewCtx =>
      some (if hc.waitPeriod ≤ 0 then .panicked else .retrying, [.renewCanceled])
  | .leading, .renewFire err =>
      if err = none then some (.leading, [.renewCall])
      else some (.lossJitter, [.renewCall, .cancelTask])
  | .lossJitter, .waitCtx =>
      some (if hc.waitPeriod ≤ 0 then .panicked else .retrying, [.jitterCanceled])
  | .lossJitter, .waitTimer =>
      some (if hc.waitPeriod ≤ 0 then .panicked else .retrying, [.jitterWait])
  | .retrying, .tickCtx => some (.stopped none, [.retryCanceled])
  | .retrying, .tickFire => some (.attempting, [.retryWait])
  | _, _ => none

/-- A run of `Start` from a phase, consuming a list of environment answers
and emitting the trace of performed actions.  The run stops consuming when
the controller has returned or panicked, or when the next answer is not of
the kind the current blocking point consumes. -/
def startRun (hc : HALockController) : Phase → List Ans → Phase × List Act
  | p, [] => (p, [])
  | p, a :: rest =>
    match startStep hc p a with
    | none => (p, [])
    | some (q, acts) =>
      match startRun hc q rest with
      | (pf, tr) => (pf, acts ++ tr)

/-- Result of the big-step `maintainLease` function: the returned error
value, a panic, or a run that is still blocked when the answers run out. -/
inductive MaintainRes
  | ret (err : Option String)
  | panicked
  | blocked
deriving DecidableEq

/-- The select loop of `maintainLease` (lock.go lines 103–115): on
`ctx.Done()` return `nil`; on a tick call `Renew` and return its error if
non-nil, otherwise loop.  Returns the result, the unconsumed answers, and
the trace. -/
def maintainLoop : List Ans → MaintainRes × List Ans × List Act
  | .renewCtx :: rest => (.ret none, rest, [.renewCanceled])
  | .renewFire none :: rest =>
    match maintainLoop rest with
    | (res, rem, tr) => (res, rem, .renewCall :: tr)
  | .renewFire (some e) :: rest => (.ret (some e), rest, [.renewCall])
  | s => (.blocked, s, [])

/-- `maintainLease` (lock.go lines 101–116): creates the renewal ticker —
panicking if `renewalPeriod ≤ 0` — then runs the select loop. -/
def maintainLease (hc : HALockController) (s : List Ans) :
    MaintainRes × List Ans × List Act :=
  if hc.renewalPeriod ≤ 0 then (.panicked, s, []) else maintainLoop s

/-- `retOK p` holds when `p` is not a return with a non-nil error. -/
def retOK : Phase → Prop
  | .stopped e => e = none
  | _ => True

theorem startStep_retOK (hc : HALockController) (p : Phase) (a : Ans) (q : Phase)
    (acts : List Act) (h : startStep hc p a = some (q, acts)) : retOK q := by
  cases p <;> cases a <;> simp only [startStep] at h <;>
    try exact Option.noConfusion h
  all_goals try split_ifs at h
  all_goals (injection h with h1; injection h1 with h2 h3; subst h2; trivial)

theorem startRun_retOK (hc : HALockController) :
    ∀ (s : List Ans) (p : Phase), retOK p → retOK (startRun hc p s).1 := by
  intro s
  induction s with
  | nil => intro p hp; exact hp
  | cons a rest ih =>
    intro p hp
    simp only [startRun]
    cases hstep : startStep hc p a with
    | none => exact hp
    | some pr =>
      obtain ⟨q, acts⟩ := pr
      have hq := startStep_retOK hc p a q acts hstep
      have hih := ih q hq
      cases hrun : startRun hc q rest with
      | mk pf tr =>
        rw [hrun] at hih
        simpa [hrun] using hih

/-- C1: `Start` runs until the governing context is canceled and, whenever
it returns, returns `nil`: the only transition to a `stopped` phase is the
cancellation branch of the retry select (`return nil`, line 94); acquisition
and renewal errors never reach a return value. -/
theorem claim_C1 (hc : HALockController) (script : List Ans) :
    retOK (startRun hc .initJitter script).1 :=
  startRun_retOK hc script .initJitter trivial

theorem startStep_stopped (hc : HALockController) (e : Option String) (a : Ans) :
    startStep hc (.stopped e) a = none := by
  cases a <;> rfl

theorem startStep_panicked (hc : HALockController) (a : Ans) :
    startStep hc .panicked a = none := by
  cases a <;> rfl

theorem startRun_stopped (hc : HALockController) (e : Option String) (s : List Ans) :
    startRun hc (.stopped e) s = (.stopped e, []) := by
  cases s with
  | nil => rfl
  | cons a rest => simp [startRun, startStep_stopped]

theorem startRun_panicked (hc : HALockController) (s : List Ans) :
    startRun hc .panicked s = (.panicked, []) := by
  cases s with
  | nil => rfl
  | cons a rest => simp [startRun, startStep_panicked]

theorem startStep_noPanic (hc : HALockController) (hwp : 0 < hc.waitPeriod)
    (hrp : 0 < hc.renewalPeriod) (p : Phase) (a : Ans) (q : Phase) (acts : List Act)
    (h : startStep hc p a = some (q, acts)) : q ≠ .panicked := by
  cases p <;> cases a <;> simp only [startStep] at h <;>
    try exact Option.noConfusion h
  all_goals try split_ifs at h
  all_goals (injection h with h1; injection h1 with h2 h3; subst h2)
  all_goals first
    | (exfalso; omega)
    | simp

theorem startRun_noPanic (hc : HALockController) (hwp : 0 < hc.waitPeriod)
    (hrp : 0 < hc.renewalPeriod) :
    ∀ (s : List Ans) (p : Phase), p ≠ .panicked →
      (startRun hc p s).1 ≠ .panicked := by
  intro s
  induction s with
  | nil => intro p hp; exact hp
  | cons a rest ih =>
    intro p hp
    simp only [startRun]
    cases hstep : startStep hc p a with
    | none => exact hp
    | some pr =>
      obtain ⟨q, acts⟩ := pr
      have hq := startStep_noPanic hc hwp hrp p a q acts hstep
      have hih := ih q hq
      cases hrun : startRun hc q rest with
      | mk pf tr =>
        rw [hrun] at hih
        simpa [hrun] using hih

/-- A concrete controller for witnesses: the derived periods of the
test-suite lease of 10 ns would be 7 and 11 ns; jitter 0. -/
def hcTest : HALockController :=
  { ID := "hac1", renewalPeriod := 7, waitPeriod := 11, randomDelay := 0 }

theorem maintainLoop_err (k : ℕ) (e : String) (rest : List Ans) :
    maintainLoop (List.replicate k (.renewFire none) ++ .renewFire (some e) :: rest) =
      (.ret (some e), rest, List.replicate k .renewCall ++ [.renewCall]) := by
  induction k with
  | zero => simp [maintainLoop]
  | succ k ih => simp [List.replicate_succ, maintainLoop, ih]

theorem maintainLoop_cancel (k : ℕ) (rest : List Ans) :
    maintainLoop (List.replicate k (.renewFire none) ++ .renewCtx :: rest) =
      (.ret none, rest, List.replicate k .renewCall ++ [.renewCanceled]) := by
  induction k with
  | zero => simp [maintainLoop]
  | succ k ih => simp [List.replicate_succ, maintainLoop, ih]

/-- C3: whenever `Renew` returns an error during the lease-maintenance
sub-loop — after any number of successful renewals, and uniformly in the
error — `maintainLease` returns that error; `Start` then cancels the task's
context (line 83) and performs the jitter wait (line 86, interruptible by
cancellation) before re-entering the `waitPeriod`-paced retry select, from
which the next tick resumes acquisition attempts. -/
theorem claim_C3 (hc : HALockController) (e : String) (k : ℕ) (rest : List Ans)
    (hrp : 0 < hc.renewalPeriod) (hwp : 0 < hc.waitPeriod) :
    maintainLease hc (List.replicate k (.renewFire none) ++ .renewFire (some e) :: rest) =
      (.ret (some e), rest, List.replicate k .renewCall ++ [.renewCall]) ∧
    startStep hc .leading (.renewFire (some e)) =
      some (.lossJitter, [.renewCall, .cancelTask]) ∧
    startStep hc .lossJitter .waitTimer = some (.retrying, [.jitterWait]) ∧
    startStep hc .lossJitter .waitCtx = some (.retrying, [.jitterCanceled]) ∧
    startStep hc .retrying .tickFire = some (.attempting, [.retryWait]) := by
  have hwp0 : ¬ hc.waitPeriod ≤ 0 := by omega
  refine ⟨?_, ?_, ?_, ?_, ?_⟩
  · unfold maintainLease
    rw [if_neg (by omega)]
    exact maintainLoop_err k e rest
  · simp [startStep]
  · simp [startStep, hwp0]
  · simp [startStep, hwp0]
  · simp [startStep]

/-- C3 witness: one successful renewal, then a failed one, on the test
controller. -/
theorem claim_C3_witness :
    maintainLease hcTest
        (List.replicate 1 (.renewFire none) ++ .renewFire (some "lease lost") :: []) =
      (.ret (some "lease lost"), [], List.replicate 1 .renewCall ++ [.renewCall]) ∧
    startStep hcTest .leading (.renewFire (some "lease lost")) =
      some (.lossJitter, [.renewCall, .cancelTask]) ∧
    startStep hcTest .lossJitter .waitTimer = some (.retrying, [.jitterWait]) ∧
    startStep hcTest .lossJitter .waitCtx = some (.retrying, [.jitterCanceled]) ∧
    startStep hcTest .retrying .tickFire = some (.attempting, [.retryWait]) :=
  claim_C3 hcTest "lease lost" 1 [] (by decide) (by decide)

/-- C4: if the governing context is canceled while in the lease-maintenance
sub-loop, `maintainLease` returns `nil` — not an error — so `Start` skips
the lease-lost branch (no task-context cancel call, no post-loss jitter
wait appear in the trace) and proceeds directly to the retry select, whose
cancellation branch then returns `nil`. -/
theorem claim_C4 (hc : HALockController) (k : ℕ) (rest : List Ans)
    (hrp : 0 < hc.renewalPeriod) (hwp : 0 < hc.waitPeriod) :
    maintainLease hc (List.replicate k (.renewFire none) ++ .renewCtx :: rest) =
      (.ret none, rest, List.replicate k .renewCall ++ [.renewCanceled]) ∧
    startStep hc .leading .renewCtx = some (.retrying, [.renewCanceled]) ∧
    startStep hc .retrying .tickCtx = some (.stopped none, [.retryCanceled]) := by
  have hwp0 : ¬ hc.waitPeriod ≤ 0 := by omega
  refine ⟨?_, ?_, ?_⟩
  · unfold maintainLease
    rw [if_neg (by omega)]
    exact maintainLoop_cancel k rest
  · simp [startStep, hwp0]
  · simp [startStep]

/-- C4 witness: cancellation after one successful renewal on the test
controller. -/
theorem claim_C4_witness :
    maintainLease hcTest (List.replicate 1 (.renewFire none) ++ .renewCtx :: []) =
      (.ret none, [], List.replicate 1 .renewCall ++ [.renewCanceled]) ∧
    startStep hcTest .leading .renewCtx = some (.retrying, [.renewCanceled]) ∧
    startStep hcTest .retrying .tickCtx = some (.stopped none, [.retryCanceled]) :=
  claim_C4 hcTest 1 [] (by decide) (by decide)

/-- C5 counterexample: the code branches on `lockID != ""` (line 67), not on
`err == nil`.  If `Acquire` returns a non-empty token TOGETHER WITH a
non-nil error, the attempt is NOT treated as "not acquired": the controller
starts the protected task and enters the `Leading` window. -/
theorem claim_C5_counterexample :
    startRun hcTest .initJitter [.waitTimer, .acq "lockID" (some "backend error")] =
      (.leading, [.jitterWait, .acquireCall, .startTask]) := by
  decide

/-- C5 (amended): the acquisition branch depends only on the returned token.
For every attempt in which `Acquire` returns an EMPTY token — whether or not
it also returns an error, and uniformly in the error, which is logged only —
the controller does not transition to `Leading`, does not start the
protected task, and proceeds to the retry wait; an error accompanied by a
non-empty token is treated as a successful acquisition. -/
theorem claim_C5 (hc : HALockController) (err : Option String)
    (hwp : 0 < hc.waitPeriod) :
    startStep hc .attempting (.acq "" err) = some (.retrying, [.acquireCall]) := by
  have hwp0 : ¬ hc.waitPeriod ≤ 0 := by omega
  simp [startStep, hwp0]

/-- C5 witness: an erroring `Acquire` with an empty token on the test
controller. -/
theorem claim_C5_witness :
    startStep hcTest .attempting (.acq "" (some "backend error")) =
      some (.retrying, [.acquireCall]) :=
  claim_C5 hcTest (some "backend error") (by decide)

/-- C10: `Start` is panic-free exactly under the precondition
`waitPeriod > 0 ∧ renewalPeriod > 0`.  With a non-positive `waitPeriod` it
panics in `time.NewTicker` right after the startup jitter wait (line 57),
however that wait ends; with a positive `waitPeriod` but non-positive
`renewalPeriod` it panics at the renewal-ticker creation (line 102) upon
first reaching `Leading`; neither is surfaced as an error return.
`NewHALockController` produces such controllers: lease `0` gives
`waitPeriod = 0`, and lease `1` ns (0.7·L truncating to 0) gives
`renewalPeriod = 0` with `waitPeriod = 1 > 0`. -/
theorem claim_C10 (hc : HALockController) (id : String) (r : ℕ) :
    (∀ s : List Ans, 0 < hc.waitPeriod → 0 < hc.renewalPeriod →
        (startRun hc .initJitter s).1 ≠ .panicked) ∧
    (hc.waitPeriod ≤ 0 → ∀ s : List Ans,
        (startRun hc .initJitter (.waitTimer :: s)).1 = .panicked ∧
        (startRun hc .initJitter (.waitCtx :: s)).1 = .panicked) ∧
    (0 < hc.waitPeriod → hc.renewalPeriod ≤ 0 →
        ∀ (tok : String) (err : Option String) (s : List Ans), tok ≠ "" →
        (startRun hc .initJitter (.waitTimer :: .acq tok err :: s)).1 = .panicked) ∧
    ((NewHALockController id r 0).waitPeriod = 0 ∧
      (NewHALockController id r 1).renewalPeriod = 0 ∧
      0 < (NewHALockController id r 1).waitPeriod) := by
  refine ⟨?_, ?_, ?_, ?_, ?_, ?_⟩
  · intro s hwp hrp
    exact startRun_noPanic hc hwp hrp s .initJitter (by simp)
  · intro hwp0 s
    constructor
    · simp [startRun, startStep, if_pos hwp0, startRun_panicked]
    · simp [startRun, startStep, if_pos hwp0, startRun_panicked]
  · intro hwp hrp0 tok err s htok
    have hwp0 : ¬ hc.waitPeriod ≤ 0 := by omega
    simp [startRun, startStep, hwp0, htok, if_pos hrp0, startRun_panicked]
  · show durMul 0 waitFactor = 0
    decide
  · show durMul 1 renewalFactor = 0
    decide
  · show (0 : ℤ) < durMul 1 waitFactor
    decide

/-- C10 witness: a controller built from lease `0` panics at the retry
ticker on its first run step. -/
theorem claim_C10_witness :
    (startRun (NewHALockController "hac1" 0 0) .initJitter [.waitTimer]).1 =
      .panicked :=
  (((claim_C10 (NewHALockController "hac1" 0 0) "hac1" 0).2.1 (by decide)) []).1

/-! ## Part 3: several controller instances sharing one lock backend

Controller instances run fully independently (they share no in-process
state); their only coordination point is the lock backend.  A system state
assigns each instance its current phase, and a system step lets one
instance take one `startStep` transition.  The claim's hypothesis on the
backend — it grants a non-empty token to at most one live holder — becomes
the guard on granting answers: `Acquire` may return a non-empty token only
while no instance holds a live grant, i.e. is inside its `Leading` window. -/

/-- The phase of each of `n` interleaved controller instances. -/
def SysState (n : ℕ) := Fin n → Phase

/-- `acqNonEmpty a` holds when `a` answers an `Acquire` call with a
non-empty token, i.e. grants the lock. -/
def acqNonEmpty : Ans → Prop
  | .acq tok _ => tok ≠ ""
  | _ => False

/-- One interleaving step of the system: instance `i` takes one transition
of its own `Start` loop.  A granting `Acquire` answer is only possible when
no instance is in its `Leading` window (the backend's mutual-exclusion
contract assumed by the claim). -/
inductive SysStep (n : ℕ) (hc : Fin n → HALockController) :
    SysState n → SysState n → Prop
  | mk (s : SysState n) (i : Fin n) (a : Ans) (q : Phase) (acts : List Act)
      (hstep : startStep (hc i) (s i) a = some (q, acts))
      (hguard : acqNonEmpty a → ∀ j, s j ≠ .leading) :
      SysStep n hc s (Function.update s i q)

/-- Initially every instance is in its startup jitter wait. -/
def sysInit (n : ℕ) : SysState n := fun _ => .initJitter

/-- At most one instance is in the `Leading` window. -/
def AtMostOneLeading {n : ℕ} (s : SysState n) : Prop :=
  ∀ i j : Fin n, s i = .leading → s j = .leading → i = j

/-- Inversion: a transition into the `Leading` window either stays inside it
or is a granting `Acquire` from `attempting`. -/
theorem startStep_leading (hc : HALockController) (p : Phase) (a : Ans)
    (acts : List Act) (h : startStep hc p a = some (.leading, acts)) :
    p = .leading ∨ (p = .attempting ∧ acqNonEmpty a) := by
  cases p <;> cases a <;> simp only [startStep] at h <;>
    try exact Option.noConfusion h
  all_goals try split_ifs at h
  all_goals (injection h with h1; injection h1 with h2 h3)
  all_goals first
    | exact Phase.noConfusion h2
    | exact Or.inl rfl
    | exact Or.inr ⟨rfl, by assumption⟩

theorem sysStep_preserves {n : ℕ} {hc : Fin n → HALockController}
    {s t : SysState n} (hstep : SysStep n hc s t)
    (hinv : AtMostOneLeading s) : AtMostOneLeading t := by
  obtain ⟨i, a, q, acts, hst, hguard⟩ := hstep
  intro j k hj hk
  by_cases hji : j = i <;> by_cases hki : k = i
  · rw [hji, hki]
  · exfalso
    rw [hji, Function.update_same] at hj
    rw [Function.update_noteq hki] at hk
    rw [hj] at hst
    rcases startStep_leading _ _ _ _ hst with hil | ⟨_, hne⟩
    · exact hki (hinv k i hk hil)
    · exact (hguard hne k) hk
  · exfalso
    rw [hki, Function.update_same] at hk
    rw [Function.update_noteq hji] at hj
    rw [hk] at hst
    rcases startStep_leading _ _ _ _ hst with hil | ⟨_, hne⟩
    · exact hji (hinv j i hj hil)
    · exact (hguard hne j) hj
  · rw [Function.update_noteq hji] at hj
    rw [Function.update_noteq hki] at hk
    exact hinv j k hj hk

/-- C2: for any number of concurrently running controller instances sharing
one lock backend that grants a non-empty token to at most one live holder,
every reachable system state has at most one instance in the `Leading`
window — between a successful non-empty `Acquire` and the end of its
lease-maintenance sub-loop. -/
theorem claim_C2 (n : ℕ) (hc : Fin n → HALockController) (s : SysState n)
    (hreach : Relation.ReflTransGen (SysStep n hc) (sysInit n) s) :
    ∀ i j : Fin n, s i = .leading → s j = .leading → i = j := by
  have hinv : AtMostOneLeading s := by
    induction hreach with
    | refl =>
      intro i j hi hj
      exact absurd hi (by simp [sysInit])
    | tail hsteps hstep ih => exact sysStep_preserves hstep ih
  exact hinv

/-- A two-instance run where instance 0 acquires the lock. -/
def sysLead : SysState 2 :=
  Function.update (Function.update (sysInit 2) 0 .attempting) 0 .leading

/-- C2 witness: the invariant applied to a concrete reachable state of a
two-instance system in which instance 0 is `Leading`. -/
theorem claim_C2_witness : (0 : Fin 2) = 0 := by
  have hstep1 : SysStep 2 (fun _ => hcTest) (sysInit 2)
      (Function.update (sysInit 2) 0 .attempting) :=
    SysStep.mk (sysInit 2) 0 .waitTimer .attempting [.jitterWait]
      (by decide) (fun h => h.elim)
  have hstep2 : SysStep 2 (fun _ => hcTest)
      (Function.update (sysInit 2) 0 .attempting) sysLead :=
    SysStep.mk (Function.update (sysInit 2) 0 .attempting) 0
      (.acq "lockID" none) .leading [.acquireCall, .startTask]
      (by decide) (by intro _ j; fin_cases j <;> decide)
  have hreach : Relation.ReflTransGen (SysStep 2 (fun _ => hcTest))
      (sysInit 2) sysLead :=
    Relation.ReflTransGen.tail (Relation.ReflTransGen.tail
      Relation.ReflTransGen.refl hstep1) hstep2
  exact claim_C2 2 (fun _ => hcTest) sysLead hreach 0 0 (by decide) (by decide)

/-! ## Trace structure between acquisition attempts (claim C6)

Between two consecutive `Acquire` calls the loop performs: possibly the
task start and some renewals, then — exactly when the lease was lost — the
task-context cancel followed by one jitter wait, and in every case exactly
one full, freshly started `waitPeriod` tick as the very last action before
the next `Acquire`. -/

/-- Actions that may occur in the interior of a gap between two
acquisitions, before the closing cancel/jitter/tick tail. -/
def plainAct (x : Act) : Prop :=
  x = .startTask ∨ x = .renewCall ∨ x = .renewCanceled

/-- All members are interior-gap actions. -/
def Plain (u : List Act) : Prop := ∀ x ∈ u, plainAct x

/-- The shape of the trace strictly between two consecutive `acquireCall`
actions: interior actions, then exactly one freshly started `waitPeriod`
tick, preceded by `cancelTask` and one jitter wait exactly in the
lease-lost case. -/
def GapShape (ys : List Act) : Prop :=
  ∃ u, Plain u ∧
    (ys = u ++ [.retryWait] ∨
     ys = u ++ [.cancelTask, .jitterWait, .retryWait] ∨
     ys = u ++ [.cancelTask, .jitterCanceled, .retryWait])

/-- The trace accumulated since the last `acquireCall`, as a function of
the phase the run is blocked at. -/
def GapAcc : Phase → List Act → Prop
  | .leading, acc => Plain acc
  | .lossJitter, acc => ∃ u, Plain u ∧ acc = u ++ [.cancelTask]
  | .retrying, acc => Plain acc ∨
      ∃ u j, Plain u ∧ (j = Act.jitterWait ∨ j = Act.jitterCanceled) ∧
        acc = u ++ [.cancelTask, j]
  | _, _ => False

theorem plain_no_acq {u : List Act} (hu : Plain u) : Act.acquireCall ∉ u := by
  intro hmem
  rcases hu _ hmem with h | h | h <;> exact Act.noConfusion h

theorem gapAcc_no_acq {p : Phase} {acc : List Act} (h : GapAcc p acc) :
    Act.acquireCall ∉ acc := by
  cases p with
  | leading => exact plain_no_acq h
  | lossJitter =>
    obtain ⟨u, hu, rfl⟩ := h
    intro hmem
    rcases List.mem_append.mp hmem with hm | hm
    · exact plain_no_acq hu hm
    · simp at hm
  | retrying =>
    rcases h with h | ⟨u, j, hu, hj, rfl⟩
    · exact plain_no_acq h
    · intro hmem
      rcases List.mem_append.mp hmem with hm | hm
      · exact plain_no_acq hu hm
      · rcases hj with rfl | rfl <;> simp at hm
  | initJitter => exact h.elim
  | attempting => exact h.elim
  | stopped e => exact h.elim
  | panicked => exact h.elim

theorem split_first_marker {α : Type} (c : α) :
    ∀ (l1 l2 xs rest : List α), c ∉ l1 → l1 ++ l2 = xs ++ c :: rest →
      ∃ xs2, xs = l1 ++ xs2 ∧ l2 = xs2 ++ c :: rest := by
  intro l1
  induction l1 with
  | nil =>
    intro l2 xs rest _ h
    exact ⟨xs, rfl, h⟩
  | cons a l1 ih =>
    intro l2 xs rest hcn h
    cases xs with
    | nil =>
      simp only [List.cons_append, List.nil_append, List.cons.injEq] at h
      exact absurd (by rw [h.1]; exact List.mem_cons_self _ _) hcn
    | cons b xs =>
      simp only [List.cons_append, List.cons.injEq] at h
      obtain ⟨xs2, hx, hl⟩ :=
        ih l2 xs rest (fun hm => hcn (List.mem_cons_of_mem _ hm)) h.2
      refine ⟨xs2, ?_, hl⟩
      rw [h.1, hx]
      rfl

theorem startRun_cons_some (hc : HALockController) (p : Phase) (a : Ans)
    (rest : List Ans) (q : Phase) (acts : List Act)
    (h : startStep hc p a = some (q, acts)) :
    startRun hc p (a :: rest) =
      ((startRun hc q rest).1, acts ++ (startRun hc q rest).2) := by
  simp [startRun, h]

theorem startRun_cons_none (hc : HALockController) (p : Phase) (a : Ans)
    (rest : List Ans) (h : startStep hc p a = none) :
    startRun hc p (a :: rest) = (p, []) := by
  simp [startRun, h]

theorem no_acq_split (l ys zs : List Act) (hl : Act.acquireCall ∉ l)
    (h : l = ys ++ Act.acquireCall :: zs) : False :=
  hl (by rw [h]; simp)

theorem plain_append {u : List Act} (hu : Plain u) {x : Act} (hx : plainAct x) :
    Plain (u ++ [x]) := by
  intro y hy
  rcases List.mem_append.mp hy with hm | hm
  · exact hu y hm
  · simp at hm
    rw [hm]
    exact hx

theorem marker_eq {α : Type} (c : α) :
    ∀ (A ys B zs : List α), c ∉ A → c ∉ ys →
      A ++ c :: B = ys ++ c :: zs → ys = A ∧ zs = B := by
  intro A
  induction A with
  | nil =>
    intro ys B zs _ hys h
    cases ys with
    | nil =>
      simp only [List.nil_append, List.cons.injEq] at h
      exact ⟨rfl, h.2.symm⟩
    | cons b ys =>
      simp only [List.nil_append, List.cons_append, List.cons.injEq] at h
      exact absurd (by rw [← h.1]; exact List.mem_cons_self _ _) hys
  | cons a A ih =>
    intro ys B zs hA hys h
    cases ys with
    | nil =>
      simp only [List.cons_append, List.nil_append, List.cons.injEq] at h
      exact absurd (by rw [h.1]; exact List.mem_cons_self _ _) hA
    | cons b ys =>
      simp only [List.cons_append, List.cons.injEq] at h
      obtain ⟨h1, h2⟩ :=
        ih ys B zs (fun hm => hA (List.mem_cons_of_mem _ hm))
          (fun hm => hys (List.mem_cons_of_mem _ hm)) h.2
      exact ⟨by rw [h1, h.1], h2⟩

theorem run_attempting_head (hc : HALockController) (s : List Ans) :
    (startRun hc .attempting s).2 = [] ∨
    ∃ tl, (startRun hc .attempting s).2 = Act.acquireCall :: tl := by
  cases s with
  | nil => exact Or.inl rfl
  | cons a rest =>
    cases a with
    | acq tok err =>
      right
      simp only [startRun, startStep]
      split_ifs <;> exact ⟨_, rfl⟩
    | waitCtx => exact Or.inl rfl
    | waitTimer => exact Or.inl rfl
    | tickCtx => exact Or.inl rfl
    | tickFire => exact Or.inl rfl
    | renewCtx => exact Or.inl rfl
    | renewFire e => exact Or.inl rfl

theorem gapFrom (hc : HALockController) (hwp : 0 < hc.waitPeriod)
    (_hrp : 0 < hc.renewalPeriod) :
    ∀ (s : List Ans) (p : Phase) (acc : List Act), GapAcc p acc →
      ∀ ys zs, acc ++ (startRun hc p s).2 = ys ++ Act.acquireCall :: zs →
        Act.acquireCall ∉ ys → GapShape ys := by
  have hwp0 : ¬ hc.waitPeriod ≤ 0 := by omega
  intro s
  induction s with
  | nil =>
    intro p acc hacc ys zs h hys
    simp only [startRun, List.append_nil] at h
    exact (no_acq_split acc ys zs (gapAcc_no_acq hacc) h).elim
  | cons a rest ih =>
    intro p acc hacc ys zs h hys
    cases p with
    | initJitter => exact hacc.elim
    | attempting => exact hacc.elim
    | stopped e => exact hacc.elim
    | panicked => exact hacc.elim
    | leading =>
      cases a with
      | renewCtx =>
        rw [startRun_cons_some hc _ _ _ _ _
          (by simp [startStep, hwp0] :
            startStep hc .leading .renewCtx = some (.retrying, [.renewCanceled]))] at h
        rw [show acc ++ ([Act.renewCanceled] ++ (startRun hc .retrying rest).2) =
            (acc ++ [Act.renewCanceled]) ++ (startRun hc .retrying rest).2 by
          simp] at h
        exact ih .retrying (acc ++ [.renewCanceled])
          (Or.inl (plain_append hacc (Or.inr (Or.inr rfl)))) ys zs h hys
      | renewFire err =>
        cases err with
        | none =>
          rw [startRun_cons_some hc _ _ _ _ _
            (by simp [startStep] :
              startStep hc .leading (.renewFire none) =
                some (.leading, [.renewCall]))] at h
          rw [show acc ++ ([Act.renewCall] ++ (startRun hc .leading rest).2) =
              (acc ++ [Act.renewCall]) ++ (startRun hc .leading rest).2 by
            simp] at h
          exact ih .leading (acc ++ [.renewCall])
            (plain_append hacc (Or.inr (Or.inl rfl))) ys zs h hys
        | some e =>
          rw [startRun_cons_some hc _ _ _ _ _
            (by simp [startStep] :
              startStep hc .leading (.renewFire (some e)) =
                some (.lossJitter, [.renewCall, .cancelTask]))] at h
          rw [show acc ++ ([Act.renewCall, Act.cancelTask] ++
                (startRun hc .lossJitter rest).2) =
              (acc ++ [Act.renewCall, Act.cancelTask]) ++
                (startRun hc .lossJitter rest).2 by simp] at h
          refine ih .lossJitter (acc ++ [.renewCall, .cancelTask])
            ⟨acc ++ [.renewCall], plain_append hacc (Or.inr (Or.inl rfl)), by simp⟩
            ys zs h hys
      | waitCtx =>
        rw [startRun_cons_none hc .leading .waitCtx rest rfl, List.append_nil] at h
        exact (no_acq_split acc ys zs (gapAcc_no_acq hacc) h).elim
      | waitTimer =>
        rw [startRun_cons_none hc .leading .waitTimer rest rfl, List.append_nil] at h
        exact (no_acq_split acc ys zs (gapAcc_no_acq hacc) h).elim
      | acq tok err =>
        rw [startRun_cons_none hc .leading (.acq tok err) rest rfl, List.append_nil] at h
        exact (no_acq_split acc ys zs (gapAcc_no_acq hacc) h).elim
      | tickCtx =>
        rw [startRun_cons_none hc .leading .tickCtx rest rfl, List.append_nil] at h
        exact (no_acq_split acc ys zs (gapAcc_no_acq hacc) h).elim
      | tickFire =>
        rw [startRun_cons_none hc .leading .tickFire rest rfl, List.append_nil] at h
        exact (no_acq_split acc ys zs (gapAcc_no_acq hacc) h).elim
    | lossJitter =>
      obtain ⟨u, hu, rfl⟩ := hacc
      cases a with
      | waitTimer =>
        rw [startRun_cons_some hc _ _ _ _ _
          (by simp [startStep, hwp0] :
            startStep hc .lossJitter .waitTimer =
              some (.retrying, [.jitterWait]))] at h
        rw [show (u ++ [Act.cancelTask]) ++
              ([Act.jitterWait] ++ (startRun hc .retrying rest).2) =
            (u ++ [Act.cancelTask, Act.jitterWait]) ++
              (startRun hc .retrying rest).2 by simp] at h
        exact ih .retrying (u ++ [.cancelTask, .jitterWait])
          (Or.inr ⟨u, .jitterWait, hu, Or.inl rfl, rfl⟩) ys zs h hys
      | waitCtx =>
        rw [startRun_cons_some hc _ _ _ _ _
          (by simp [startStep, hwp0] :
            startStep hc .lossJitter .waitCtx =
              some (.retrying, [.jitterCanceled]))] at h
        rw [show (u ++ [Act.cancelTask]) ++
              ([Act.jitterCanceled] ++ (startRun hc .retrying rest).2) =
            (u ++ [Act.cancelTask, Act.jitterCanceled]) ++
              (startRun hc .retrying rest).2 by simp] at h
        exact ih .retrying (u ++ [.cancelTask, .jitterCanceled])
          (Or.inr ⟨u, .jitterCanceled, hu, Or.inr rfl, rfl⟩) ys zs h hys
      | acq tok err =>
        rw [startRun_cons_none hc .lossJitter (.acq tok err) rest rfl, List.append_nil] at h
        exact (no_acq_split _ ys zs
          (gapAcc_no_acq (p := .lossJitter) ⟨u, hu, rfl⟩) h).elim
      | tickCtx =>
        rw [startRun_cons_none hc .lossJitter .tickCtx rest rfl, List.append_nil] at h
        exact (no_acq_split _ ys zs
          (gapAcc_no_acq (p := .lossJitter) ⟨u, hu, rfl⟩) h).elim
      | tickFire =>
        rw [startRun_cons_none hc .lossJitter .tickFire rest rfl, List.append_nil] at h
        exact (no_acq_split _ ys zs
          (gapAcc_no_acq (p := .lossJitter) ⟨u, hu, rfl⟩) h).elim
      | renewCtx =>
        rw [startRun_cons_none hc .lossJitter .renewCtx rest rfl, List.append_nil] at h
        exact (no_acq_split _ ys zs
          (gapAcc_no_acq (p := .lossJitter) ⟨u, hu, rfl⟩) h).elim
      | renewFire e =>
        rw [startRun_cons_none hc .lossJitter (.renewFire e) rest rfl, List.append_nil] at h
        exact (no_acq_split _ ys zs
          (gapAcc_no_acq (p := .lossJitter) ⟨u, hu, rfl⟩) h).elim
    | retrying =>
      cases a with
      | tickCtx =>
        rw [startRun_cons_some hc _ _ _ _ _
          (by simp [startStep] :
            startStep hc .retrying .tickCtx =
              some (.stopped none, [.retryCanceled])),
          startRun_stopped] at h
        refine (no_acq_split (acc ++ [Act.retryCanceled]) ys zs ?_ (by simpa using h)).elim
        intro hmem
        rcases List.mem_append.mp hmem with hm | hm
        · exact gapAcc_no_acq hacc hm
        · simp at hm
      | tickFire =>
        rw [startRun_cons_some hc _ _ _ _ _
          (by simp [startStep] :
            startStep hc .retrying .tickFire =
              some (.attempting, [.retryWait]))] at h
        have hAnoacq : Act.acquireCall ∉ acc ++ [Act.retryWait] := by
          intro hmem
          rcases List.mem_append.mp hmem with hm | hm
          · exact gapAcc_no_acq hacc hm
          · simp at hm
        rcases run_attempting_head hc rest with htr | ⟨tl, htr⟩
        · rw [htr] at h
          exact (no_acq_split (acc ++ [Act.retryWait]) ys zs hAnoacq
            (by simpa using h)).elim
        · rw [htr] at h
          have heq : (acc ++ [Act.retryWait]) ++ Act.acquireCall :: tl =
              ys ++ Act.acquireCall :: zs := by
            simpa using h
          obtain ⟨hysA, _⟩ := marker_eq Act.acquireCall (acc ++ [Act.retryWait])
            ys tl zs hAnoacq hys heq
          rw [hysA]
          rcases hacc with hpl | ⟨u, j, hu, hj, rfl⟩
          · exact ⟨acc, hpl, Or.inl rfl⟩
          · rcases hj with rfl | rfl
            · exact ⟨u, hu, Or.inr (Or.inl (by simp))⟩
            · exact ⟨u, hu, Or.inr (Or.inr (by simp))⟩
      | waitCtx =>
        rw [startRun_cons_none hc .retrying .waitCtx rest rfl, List.append_nil] at h
        exact (no_acq_split acc ys zs (gapAcc_no_acq hacc) h).elim
      | waitTimer =>
        rw [startRun_cons_none hc .retrying .waitTimer rest rfl, List.append_nil] at h
        exact (no_acq_split acc ys zs (gapAcc_no_acq hacc) h).elim
      | acq tok err =>
        rw [startRun_cons_none hc .retrying (.acq tok err) rest rfl, List.append_nil] at h
        exact (no_acq_split acc ys zs (gapAcc_no_acq hacc) h).elim
      | renewCtx =>
        rw [startRun_cons_none hc .retrying .renewCtx rest rfl, List.append_nil] at h
        exact (no_acq_split acc ys zs (gapAcc_no_acq hacc) h).elim
      | renewFire e =>
        rw [startRun_cons_none hc .retrying (.renewFire e) rest rfl, List.append_nil] at h
        exact (no_acq_split acc ys zs (gapAcc_no_acq hacc) h).elim

/-- Every interior gap of a trace — the actions strictly between two
consecutive `acquireCall`s — has the `GapShape`. -/
def SecondGaps (tr : List Act) : Prop :=
  ∀ xs ys zs, tr = xs ++ Act.acquireCall :: (ys ++ Act.acquireCall :: zs) →
    Act.acquireCall ∉ ys → GapShape ys

theorem secondGaps_short (l : List Act) (hlen : l.length ≤ 1) : SecondGaps l := by
  intro xs ys zs h hys
  exfalso
  have hlength := congrArg List.length h
  simp [List.length_append] at hlength
  omega

theorem secondGaps_cons (x : Act) (hx : x ≠ Act.acquireCall) (tr : List Act)
    (h : SecondGaps tr) : SecondGaps (x :: tr) := by
  intro xs ys zs heq hys
  cases xs with
  | nil =>
    injection heq with h1 h2
    exact absurd h1 hx
  | cons b xs2 =>
    injection heq with h1 h2
    exact h xs2 ys zs h2 hys

theorem secondGaps_acq (tr : List Act)
    (hfirst : ∀ ys zs, tr = ys ++ Act.acquireCall :: zs →
      Act.acquireCall ∉ ys → GapShape ys)
    (hsec : SecondGaps tr) : SecondGaps (Act.acquireCall :: tr) := by
  intro xs ys zs heq hys
  cases xs with
  | nil =>
    injection heq with h1 h2
    exact hfirst ys zs h2 hys
  | cons b xs2 =>
    injection heq with h1 h2
    exact hsec xs2 ys zs h2 hys

theorem allGaps (hc : HALockController) (hwp : 0 < hc.waitPeriod)
    (hrp : 0 < hc.renewalPeriod) :
    ∀ (s : List Ans) (p : Phase), SecondGaps (startRun hc p s).2 := by
  have hwp0 : ¬ hc.waitPeriod ≤ 0 := by omega
  have hrp0 : ¬ hc.renewalPeriod ≤ 0 := by omega
  intro s
  induction s with
  | nil =>
    intro p
    exact secondGaps_short _ (by simp [startRun])
  | cons a rest ih =>
    intro p
    cases p with
    | stopped e =>
      rw [startRun_stopped]
      exact secondGaps_short _ (by simp)
    | panicked =>
      rw [startRun_panicked]
      exact secondGaps_short _ (by simp)
    | initJitter =>
      cases a with
      | waitTimer =>
        rw [startRun_cons_some hc _ _ _ _ _
          (by simp [startStep, hwp0] :
            startStep hc .initJitter .waitTimer = some (.attempting, [.jitterWait]))]
        exact secondGaps_cons _ (by simp) _ (ih .attempting)
      | waitCtx =>
        rw [startRun_cons_some hc _ _ _ _ _
          (by simp [startStep, hwp0] :
            startStep hc .initJitter .waitCtx =
              some (.attempting, [.jitterCanceled]))]
        exact secondGaps_cons _ (by simp) _ (ih .attempting)
      | acq tok err =>
        rw [startRun_cons_none hc .initJitter (.acq tok err) rest rfl]
        exact secondGaps_short _ (by simp)
      | tickCtx =>
        rw [startRun_cons_none hc .initJitter .tickCtx rest rfl]
        exact secondGaps_short _ (by simp)
      | tickFire =>
        rw [startRun_cons_none hc .initJitter .tickFire rest rfl]
        exact secondGaps_short _ (by simp)
      | renewCtx =>
        rw [startRun_cons_none hc .initJitter .renewCtx rest rfl]
        exact secondGaps_short _ (by simp)
      | renewFire e =>
        rw [startRun_cons_none hc .initJitter (.renewFire e) rest rfl]
        exact secondGaps_short _ (by simp)
    | attempting =>
      cases a with
      | acq tok err =>
        by_cases htok : tok = ""
        · rw [htok]
          rw [startRun_cons_some hc _ _ _ _ _
            (by simp [startStep, hwp0] :
              startStep hc .attempting (.acq "" err) =
                some (.retrying, [.acquireCall]))]
          refine secondGaps_acq _ ?_ (ih .retrying)
          intro ys zs h hys
          exact gapFrom hc hwp hrp rest .retrying [] (Or.inl (by intro x hx; simp at hx))
            ys zs (by simpa using h) hys
        · rw [startRun_cons_some hc _ _ _ _ _
            (by simp [startStep, htok, hrp0] :
              startStep hc .attempting (.acq tok err) =
                some (.leading, [.acquireCall, .startTask]))]
          refine secondGaps_acq _ ?_ (secondGaps_cons _ (by simp) _ (ih .leading))
          intro ys zs h hys
          exact gapFrom hc hwp hrp rest .leading [Act.startTask]
            (by intro x hx; simp at hx; rw [hx]; exact Or.inl rfl)
            ys zs (by simpa using h) hys
      | waitCtx =>
        rw [startRun_cons_none hc .attempting .waitCtx rest rfl]
        exact secondGaps_short _ (by simp)
      | waitTimer =>
        rw [startRun_cons_none hc .attempting .waitTimer rest rfl]
        exact secondGaps_short _ (by simp)
      | tickCtx =>
        rw [startRun_cons_none hc .attempting .tickCtx rest rfl]
        exact secondGaps_short _ (by simp)
      | tickFire =>
        rw [startRun_cons_none hc .attempting .tickFire rest rfl]
        exact secondGaps_short _ (by simp)
      | renewCtx =>
        rw [startRun_cons_none hc .attempting .renewCtx rest rfl]
        exact secondGaps_short _ (by simp)
      | renewFire e =>
        rw [startRun_cons_none hc .attempting (.renewFire e) rest rfl]
        exact secondGaps_short _ (by simp)
    | leading =>
      cases a with
      | renewCtx =>
        rw [startRun_cons_some hc _ _ _ _ _
          (by simp [startStep, hwp0] :
            startStep hc .leading .renewCtx = some (.retrying, [.renewCanceled]))]
        exact secondGaps_cons _ (by simp) _ (ih .retrying)
      | renewFire err =>
        cases err with
        | none =>
          rw [startRun_cons_some hc _ _ _ _ _
            (by simp [startStep] :
              startStep hc .leading (.renewFire none) =
                some (.leading, [.renewCall]))]
          exact secondGaps_cons _ (by simp) _ (ih .leading)
        | some e =>
          rw [startRun_cons_some hc _ _ _ _ _
            (by simp [startStep] :
              startStep hc .leading (.renewFire (some e)) =
                some (.lossJitter, [.renewCall, .cancelTask]))]
          exact secondGaps_cons _ (by simp) _
            (secondGaps_cons _ (by simp) _ (ih .lossJitter))
      | waitCtx =>
        rw [startRun_cons_none hc .leading .waitCtx rest rfl]
        exact secondGaps_short _ (by simp)
      | waitTimer =>
        rw [startRun_cons_none hc .leading .waitTimer rest rfl]
        exact secondGaps_short _ (by simp)
      | acq tok err =>
        rw [startRun_cons_none hc .leading (.acq tok err) rest rfl]
        exact secondGaps_short _ (by simp)
      | tickCtx =>
        rw [startRun_cons_none hc .leading .tickCtx rest rfl]
        exact secondGaps_short _ (by simp)
      | tickFire =>
        rw [startRun_cons_none hc .leading .tickFire rest rfl]
        exact secondGaps_short _ (by simp)
    | lossJitter =>
      cases a with
      | waitTimer =>
        rw [startRun_cons_some hc _ _ _ _ _
          (by simp [startStep, hwp0] :
            startStep hc .lossJitter .waitTimer =
              some (.retrying, [.jitterWait]))]
        exact secondGaps_cons _ (by simp) _ (ih .retrying)
      | waitCtx =>
        rw [startRun_cons_some hc _ _ _ _ _
          (by simp [startStep, hwp0] :
            startStep hc .lossJitter .waitCtx =
              some (.retrying, [.jitterCanceled]))]
        exact secondGaps_cons _ (by simp) _ (ih .retrying)
      | acq tok err =>
        rw [startRun_cons_none hc .lossJitter (.acq tok err) rest rfl]
        exact secondGaps_short _ (by simp)
      | tickCtx =>
        rw [startRun_cons_none hc .lossJitter .tickCtx rest rfl]
        exact secondGaps_short _ (by simp)
      | tickFire =>
        rw [startRun_cons_none hc .lossJitter .tickFire rest rfl]
        exact secondGaps_short _ (by simp)
      | renewCtx =>
        rw [startRun_cons_none hc .lossJitter .renewCtx rest rfl]
        exact secondGaps_short _ (by simp)
      | renewFire e =>
        rw [startRun_cons_none hc .lossJitter (.renewFire e) rest rfl]
        exact secondGaps_short _ (by simp)
    | retrying =>
      cases a with
      | tickCtx =>
        rw [startRun_cons_some hc _ _ _ _ _
          (by simp [startStep] :
            startStep hc .retrying .tickCtx =
              some (.stopped none, [.retryCanceled])),
          startRun_stopped]
        exact secondGaps_short _ (by simp)
      | tickFire =>
        rw [startRun_cons_some hc _ _ _ _ _
          (by simp [startStep] :
            startStep hc .retrying .tickFire =
              some (.attempting, [.retryWait]))]
        exact secondGaps_cons _ (by simp) _ (ih .attempting)
      | waitCtx =>
        rw [startRun_cons_none hc .retrying .waitCtx rest rfl]
        exact secondGaps_short _ (by simp)
      | waitTimer =>
        rw [startRun_cons_none hc .retrying .waitTimer rest rfl]
        exact secondGaps_short _ (by simp)
      | acq tok err =>
        rw [startRun_cons_none hc .retrying (.acq tok err) rest rfl]
        exact secondGaps_short _ (by simp)
      | renewCtx =>
        rw [startRun_cons_none hc .retrying .renewCtx rest rfl]
        exact secondGaps_short _ (by simp)
      | renewFire e =>
        rw [startRun_cons_none hc .retrying (.renewFire e) rest rfl]
        exact secondGaps_short _ (by simp)

/-- C6: in any run of a controller with positive derived periods — the
precondition for the loop to run at all, see C10 — the trace strictly
between any two consecutive `Acquire` calls consists of interior actions
(task start, renewals, a clean maintenance exit) followed by exactly one
full, freshly started `waitPeriod` tick as the last action before the next
`Acquire`; and exactly in the lease-lost case (`cancelTask` present) one
additional `randomDelay` jitter wait precedes that tick. -/
theorem claim_C6 (hc : HALockController) (hwp : 0 < hc.waitPeriod)
    (hrp : 0 < hc.renewalPeriod) (script : List Ans)
    (xs ys zs : List Act)
    (h : (startRun hc .initJitter script).2 =
      xs ++ Act.acquireCall :: (ys ++ Act.acquireCall :: zs))
    (hys : Act.acquireCall ∉ ys) : GapShape ys :=
  allGaps hc hwp hrp script .initJitter xs ys zs h hys

/-- C6 witness: two acquisition attempts separated by exactly one
`waitPeriod` tick. -/
theorem claim_C6_witness : GapShape [Act.retryWait] :=
  claim_C6 hcTest (by decide) (by decide)
    [.waitTimer, .acq "" none, .tickFire, .acq "" none]
    [Act.jitterWait] [Act.retryWait] []
    (by decide) (by decide)

/-! ## Behaviour after cancellation of the governing context (claim C7)

`wait`, the retry select and the renewal select all select on
`ctx.Done()`.  Once the governing context is canceled, `Done` is closed, so
every later select whose other channel is not already ready reports
cancellation: the retry and renewal tickers are created with positive
periods (and the retry ticker is even re-created fresh each iteration), so
after a cancellation answer a well-formed environment only produces
cancellation answers at selects — `Acquire` is a plain call, not a select,
and still gets answered.  `WFcB` captures exactly this. -/

/-- Answers that report the governing context as canceled. -/
def cancelAns : Ans → Bool
  | .waitCtx => true
  | .tickCtx => true
  | .renewCtx => true
  | _ => false

/-- Answers to an `Acquire` call (not a select; available even after
cancellation). -/
def isAcqAns : Ans → Bool
  | .acq _ _ => true
  | _ => false

/-- Every remaining answer is a cancellation report or an `Acquire`
result. -/
def NoProgB (s : List Ans) : Bool :=
  s.all fun a => cancelAns a || isAcqAns a

/-- Cancellation priority: after the first cancellation answer, only
cancellation reports and `Acquire` results follow. -/
def WFcB : List Ans → Bool
  | [] => true
  | a :: s => (!cancelAns a || NoProgB s) && WFcB s

/-- Trace actions that mark a select observing `ctx.Done()`. -/
def cancelAct : Act → Bool
  | .jitterCanceled => true
  | .retryCanceled => true
  | .renewCanceled => true
  | _ => false

theorem noProgB_cons {a : Ans} {s : List Ans} (h : NoProgB (a :: s) = true) :
    (cancelAns a || isAcqAns a) = true ∧ NoProgB s = true := by
  simp only [NoProgB, List.all_cons, Bool.and_eq_true] at h
  exact ⟨h.1, h.2⟩

theorem wfcB_cons {a : Ans} {s : List Ans} (h : WFcB (a :: s) = true) :
    (cancelAns a = true → NoProgB s = true) ∧ WFcB s = true := by
  simp only [WFcB, Bool.and_eq_true, Bool.or_eq_true, Bool.not_eq_true'] at h
  constructor
  · intro hca
    rcases h.1 with h1 | h1
    · rw [hca] at h1; exact Bool.noConfusion h1
    · exact h1
  · exact h.2

theorem acRetry (hc : HALockController) :
    ∀ (s : List Ans), NoProgB s = true →
      ∀ x ∈ (startRun hc .retrying s).2, x = Act.retryCanceled := by
  intro s hnp x hx
  cases s with
  | nil => simp [startRun] at hx
  | cons a rest =>
    cases a with
    | tickCtx =>
      rw [startRun_cons_some hc _ _ _ _ _
        (by simp [startStep] :
          startStep hc .retrying .tickCtx =
            some (.stopped none, [.retryCanceled])),
        startRun_stopped] at hx
      simpa using hx
    | tickFire =>
      exact absurd (noProgB_cons hnp).1 (by decide)
    | waitCtx =>
      rw [startRun_cons_none hc .retrying .waitCtx rest rfl] at hx
      simp at hx
    | waitTimer =>
      rw [startRun_cons_none hc .retrying .waitTimer rest rfl] at hx
      simp at hx
    | acq tok err =>
      rw [startRun_cons_none hc .retrying (.acq tok err) rest rfl] at hx
      simp at hx
    | renewCtx =>
      rw [startRun_cons_none hc .retrying .renewCtx rest rfl] at hx
      simp at hx
    | renewFire e =>
      rw [startRun_cons_none hc .retrying (.renewFire e) rest rfl] at hx
      simp at hx

theorem acLead (hc : HALockController) (hwp : 0 < hc.waitPeriod) :
    ∀ (s : List Ans), NoProgB s = true →
      ∀ x ∈ (startRun hc .leading s).2,
        x = Act.renewCanceled ∨ x = Act.retryCanceled := by
  have hwp0 : ¬ hc.waitPeriod ≤ 0 := by omega
  intro s hnp x hx
  cases s with
  | nil => simp [startRun] at hx
  | cons a rest =>
    cases a with
    | renewCtx =>
      rw [startRun_cons_some hc _ _ _ _ _
        (by simp [startStep, hwp0] :
          startStep hc .leading .renewCtx =
            some (.retrying, [.renewCanceled]))] at hx
      simp at hx
      rcases hx with hx | hx
      · exact Or.inl hx
      · exact Or.inr (acRetry hc rest (noProgB_cons hnp).2 x hx)
    | renewFire e =>
      exact absurd (noProgB_cons hnp).1 (by simp [cancelAns, isAcqAns])
    | waitCtx =>
      rw [startRun_cons_none hc .leading .waitCtx rest rfl] at hx
      simp at hx
    | waitTimer =>
      rw [startRun_cons_none hc .leading .waitTimer rest rfl] at hx
      simp at hx
    | acq tok err =>
      rw [startRun_cons_none hc .leading (.acq tok err) rest rfl] at hx
      simp at hx
    | tickCtx =>
      rw [startRun_cons_none hc .leading .tickCtx rest rfl] at hx
      simp at hx
    | tickFire =>
      rw [startRun_cons_none hc .leading .tickFire rest rfl] at hx
      simp at hx

theorem acAttempt (hc : HALockController) (hwp : 0 < hc.waitPeriod)
    (hrp : 0 < hc.renewalPeriod) :
    ∀ (s : List Ans), NoProgB s = true →
      (∀ x ∈ (startRun hc .attempting s).2, x ≠ Act.renewCall) ∧
      List.count Act.acquireCall (startRun hc .attempting s).2 ≤ 1 := by
  have hwp0 : ¬ hc.waitPeriod ≤ 0 := by omega
  have hrp0 : ¬ hc.renewalPeriod ≤ 0 := by omega
  intro s hnp
  cases s with
  | nil => simp [startRun]
  | cons a rest =>
    cases a with
    | acq tok err =>
      by_cases htok : tok = ""
      · rw [htok]
        rw [startRun_cons_some hc _ _ _ _ _
          (by simp [startStep, hwp0] :
            startStep hc .attempting (.acq "" err) =
              some (.retrying, [.acquireCall]))]
        have hall := acRetry hc rest (noProgB_cons hnp).2
        constructor
        · intro x hx
          simp at hx
          rcases hx with hx | hx
          · rw [hx]; simp
          · rw [hall x hx]; simp
        · simp only [List.cons_append, List.nil_append, List.count_cons]
          have hz : List.count Act.acquireCall (startRun hc .retrying rest).2 = 0 := by
            rw [List.count_eq_zero]
            intro hmem
            exact absurd (hall _ hmem) (by decide)
          simp [hz]
      · rw [startRun_cons_some hc _ _ _ _ _
          (by simp [startStep, htok, hrp0] :
            startStep hc .attempting (.acq tok err) =
              some (.leading, [.acquireCall, .startTask]))]
        have hall := acLead hc hwp rest (noProgB_cons hnp).2
        constructor
        · intro x hx
          simp at hx
          rcases hx with hx | hx | hx
          · rw [hx]; simp
          · rw [hx]; simp
          · rcases hall x hx with hx2 | hx2 <;> rw [hx2] <;> simp
        · simp only [List.cons_append, List.nil_append, List.count_cons]
          have hz : List.count Act.acquireCall (startRun hc .leading rest).2 = 0 := by
            rw [List.count_eq_zero]
            intro hmem
            rcases hall _ hmem with hx2 | hx2 <;> simp at hx2
          simp [hz]
    | waitCtx =>
      rw [startRun_cons_none hc .attempting .waitCtx rest rfl]
      simp
    | waitTimer =>
      exact absurd (noProgB_cons hnp).1 (by decide)
    | tickCtx =>
      rw [startRun_cons_none hc .attempting .tickCtx rest rfl]
      simp
    | tickFire =>
      exact absurd (noProgB_cons hnp).1 (by decide)
    | renewCtx =>
      rw [startRun_cons_none hc .attempting .renewCtx rest rfl]
      simp
    | renewFire e =>
      exact absurd (noProgB_cons hnp).1 (by simp [cancelAns, isAcqAns])

theorem nil_no_split {α : Type} (xs : List α) (c : α) (ys : List α) :
    ¬ (([] : List α) = xs ++ c :: ys) := by
  intro h
  have hlength := congrArg List.length h
  simp [List.length_append] at hlength
  omega

theorem split_first_bool {α : Type} (P : α → Bool) :
    ∀ (l1 l2 xs rest : List α) (c : α), (∀ x ∈ l1, P x = false) → P c = true →
      (∀ x ∈ xs, P x = false) → l1 ++ l2 = xs ++ c :: rest →
      ∃ xs2, (∀ x ∈ xs2, P x = false) ∧ xs = l1 ++ xs2 ∧ l2 = xs2 ++ c :: rest := by
  intro l1
  induction l1 with
  | nil =>
    intro l2 xs rest c _ _ hxs h
    exact ⟨xs, hxs, rfl, h⟩
  | cons a l1 ih =>
    intro l2 xs rest c hl1 hcP hxs h
    cases xs with
    | nil =>
      simp only [List.nil_append, List.cons_append] at h
      injection h with h1 h2
      have hfa := hl1 a (List.mem_cons_self _ _)
      rw [h1, hcP] at hfa
      exact Bool.noConfusion hfa
    | cons b xs2 =>
      simp only [List.cons_append] at h
      injection h with h1 h2
      obtain ⟨xs3, hxs3, hx, hl⟩ := ih l2 xs2 rest c
        (fun x hm => hl1 x (List.mem_cons_of_mem _ hm)) hcP
        (fun x hm => hxs x (List.mem_cons_of_mem _ hm)) h2
      exact ⟨xs3, hxs3, by rw [hx, h1]; rfl, hl⟩

theorem afterCancel (hc : HALockController) (hwp : 0 < hc.waitPeriod)
    (hrp : 0 < hc.renewalPeriod) :
    ∀ (s : List Ans) (p : Phase), WFcB s = true → p ≠ .initJitter →
      ∀ xs c ys, (startRun hc p s).2 = xs ++ c :: ys → cancelAct c = true →
        (∀ x ∈ xs, cancelAct x = false) →
        ∀ x ∈ ys, x ≠ Act.renewCall ∧ x ≠ Act.acquireCall := by
  have hwp0 : ¬ hc.waitPeriod ≤ 0 := by omega
  have hrp0 : ¬ hc.renewalPeriod ≤ 0 := by omega
  intro s
  induction s with
  | nil =>
    intro p _ _ xs c ys h _ _
    rw [startRun] at h
    exact absurd h (nil_no_split xs c ys)
  | cons a rest ih =>
    intro p hwf hp xs c ys h hcC hxs
    obtain ⟨hwf1, hwfr⟩ := wfcB_cons hwf
    cases p with
    | initJitter => exact absurd rfl hp
    | stopped e =>
      rw [startRun_stopped] at h
      exact absurd h (nil_no_split xs c ys)
    | panicked =>
      rw [startRun_panicked] at h
      exact absurd h (nil_no_split xs c ys)
    | attempting =>
      cases a with
      | acq tok err =>
        by_cases htok : tok = ""
        · rw [htok] at h
          rw [startRun_cons_some hc _ _ _ _ _
            (by simp [startStep, hwp0] :
              startStep hc .attempting (.acq "" err) =
                some (.retrying, [.acquireCall]))] at h
          obtain ⟨xs2, hxs2, _, hl⟩ := split_first_bool cancelAct
            [Act.acquireCall] (startRun hc .retrying rest).2 xs ys c
            (by intro x hx; simp at hx; rw [hx]; rfl) hcC hxs h
          exact ih .retrying hwfr (by simp) xs2 c ys hl hcC hxs2
        · rw [startRun_cons_some hc _ _ _ _ _
            (by simp [startStep, htok, hrp0] :
              startStep hc .attempting (.acq tok err) =
                some (.leading, [.acquireCall, .startTask]))] at h
          obtain ⟨xs2, hxs2, _, hl⟩ := split_first_bool cancelAct
            [Act.acquireCall, Act.startTask] (startRun hc .leading rest).2 xs ys c
            (by intro x hx; simp at hx; rcases hx with hx | hx <;> rw [hx] <;> rfl)
            hcC hxs h
          exact ih .leading hwfr (by simp) xs2 c ys hl hcC hxs2
      | waitCtx =>
        rw [startRun_cons_none hc .attempting .waitCtx rest rfl] at h
        exact absurd h (nil_no_split xs c ys)
      | waitTimer =>
        rw [startRun_cons_none hc .attempting .waitTimer rest rfl] at h
        exact absurd h (nil_no_split xs c ys)
      | tickCtx =>
        rw [startRun_cons_none hc .attempting .tickCtx rest rfl] at h
        exact absurd h (nil_no_split xs c ys)
      | tickFire =>
        rw [startRun_cons_none hc .attempting .tickFire rest rfl] at h
        exact absurd h (nil_no_split xs c ys)
      | renewCtx =>
        rw [startRun_cons_none hc .attempting .renewCtx rest rfl] at h
        exact absurd h (nil_no_split xs c ys)
      | renewFire e =>
        rw [startRun_cons_none hc .attempting (.renewFire e) rest rfl] at h
        exact absurd h (nil_no_split xs c ys)
    | leading =>
      cases a with
      | renewFire err =>
        cases err with
        | none =>
          rw [startRun_cons_some hc _ _ _ _ _
            (by simp [startStep] :
              startStep hc .leading (.renewFire none) =
                some (.leading, [.renewCall]))] at h
          obtain ⟨xs2, hxs2, _, hl⟩ := split_first_bool cancelAct
            [Act.renewCall] (startRun hc .leading rest).2 xs ys c
            (by intro x hx; simp at hx; rw [hx]; rfl) hcC hxs h
          exact ih .leading hwfr (by simp) xs2 c ys hl hcC hxs2
        | some e =>
          rw [startRun_cons_some hc _ _ _ _ _
            (by simp [startStep] :
              startStep hc .leading (.renewFire (some e)) =
                some (.lossJitter, [.renewCall, .cancelTask]))] at h
          obtain ⟨xs2, hxs2, _, hl⟩ := split_first_bool cancelAct
            [Act.renewCall, Act.cancelTask] (startRun hc .lossJitter rest).2 xs ys c
            (by intro x hx; simp at hx; rcases hx with hx | hx <;> rw [hx] <;> rfl)
            hcC hxs h
          exact ih .lossJitter hwfr (by simp) xs2 c ys hl hcC hxs2
      | renewCtx =>
        rw [startRun_cons_some hc _ _ _ _ _
          (by simp [startStep, hwp0] :
            startStep hc .leading .renewCtx =
              some (.retrying, [.renewCanceled]))] at h
        cases xs with
        | nil =>
          injection h with h1 h2
          intro x hx
          rw [← h2] at hx
          rw [acRetry hc rest (hwf1 rfl) x hx]
          exact ⟨by simp, by simp⟩
        | cons b xs2 =>
          injection h with h1 h2
          have hfb := hxs b (List.mem_cons_self _ _)
          rw [← h1] at hfb
          simp [cancelAct] at hfb
      | waitCtx =>
        rw [startRun_cons_none hc .leading .waitCtx rest rfl] at h
        exact absurd h (nil_no_split xs c ys)
      | waitTimer =>
        rw [startRun_cons_none hc .leading .waitTimer rest rfl] at h
        exact absurd h (nil_no_split xs c ys)
      | acq tok err =>
        rw [startRun_cons_none hc .leading (.acq tok err) rest rfl] at h
        exact absurd h (nil_no_split xs c ys)
      | tickCtx =>
        rw [startRun_cons_none hc .leading .tickCtx rest rfl] at h
        exact absurd h (nil_no_split xs c ys)
      | tickFire =>
        rw [startRun_cons_none hc .leading .tickFire rest rfl] at h
        exact absurd h (nil_no_split xs c ys)
    | lossJitter =>
      cases a with
      | waitTimer =>
        rw [startRun_cons_some hc _ _ _ _ _
          (by simp [startStep, hwp0] :
            startStep hc .lossJitter .waitTimer =
              some (.retrying, [.jitterWait]))] at h
        obtain ⟨xs2, hxs2, _, hl⟩ := split_first_bool cancelAct
          [Act.jitterWait] (startRun hc .retrying rest).2 xs ys c
          (by intro x hx; simp at hx; rw [hx]; rfl) hcC hxs h
        exact ih .retrying hwfr (by simp) xs2 c ys hl hcC hxs2
      | waitCtx =>
        rw [startRun_cons_some hc _ _ _ _ _
          (by simp [startStep, hwp0] :
            startStep hc .lossJitter .waitCtx =
              some (.retrying, [.jitterCanceled]))] at h
        cases xs with
        | nil =>
          injection h with h1 h2
          intro x hx
          rw [← h2] at hx
          rw [acRetry hc rest (hwf1 rfl) x hx]
          exact ⟨by simp, by simp⟩
        | cons b xs2 =>
          injection h with h1 h2
          have hfb := hxs b (List.mem_cons_self _ _)
          rw [← h1] at hfb
          simp [cancelAct] at hfb
      | acq tok err =>
        rw [startRun_cons_none hc .lossJitter (.acq tok err) rest rfl] at h
        exact absurd h (nil_no_split xs c ys)
      | tickCtx =>
        rw [startRun_cons_none hc .lossJitter .tickCtx rest rfl] at h
        exact absurd h (nil_no_split xs c ys)
      | tickFire =>
        rw [startRun_cons_none hc .lossJitter .tickFire rest rfl] at h
        exact absurd h (nil_no_split xs c ys)
      | renewCtx =>
        rw [startRun_cons_none hc .lossJitter .renewCtx rest rfl] at h
        exact absurd h (nil_no_split xs c ys)
      | renewFire e =>
        rw [startRun_cons_none hc .lossJitter (.renewFire e) rest rfl] at h
        exact absurd h (nil_no_split xs c ys)
    | retrying =>
      cases a with
      | tickFire =>
        rw [startRun_cons_some hc _ _ _ _ _
          (by simp [startStep] :
            startStep hc .retrying .tickFire =
              some (.attempting, [.retryWait]))] at h
        obtain ⟨xs2, hxs2, _, hl⟩ := split_first_bool cancelAct
          [Act.retryWait] (startRun hc .attempting rest).2 xs ys c
          (by intro x hx; simp at hx; rw [hx]; rfl) hcC hxs h
        exact ih .attempting hwfr (by simp) xs2 c ys hl hcC hxs2
      | tickCtx =>
        rw [startRun_cons_some hc _ _ _ _ _
          (by simp [startStep] :
            startStep hc .retrying .tickCtx =
              some (.stopped none, [.retryCanceled])),
          startRun_stopped] at h
        cases xs with
        | nil =>
          injection h with h1 h2
          intro x hx
          rw [← h2] at hx
          simp at hx
        | cons b xs2 =>
          injection h with h1 h2
          have h2n : ([] : List Act) = xs2 ++ c :: ys := by simpa using h2.symm
          exact absurd h2n (nil_no_split xs2 c ys)
      | waitCtx =>
        rw [startRun_cons_none hc .retrying .waitCtx rest rfl] at h
        exact absurd h (nil_no_split xs c ys)
      | waitTimer =>
        rw [startRun_cons_none hc .retrying .waitTimer rest rfl] at h
        exact absurd h (nil_no_split xs c ys)
      | acq tok err =>
        rw [startRun_cons_none hc .retrying (.acq tok err) rest rfl] at h
        exact absurd h (nil_no_split xs c ys)
      | renewCtx =>
        rw [startRun_cons_none hc .retrying .renewCtx rest rfl] at h
        exact absurd h (nil_no_split xs c ys)
      | renewFire e =>
        rw [startRun_cons_none hc .retrying (.renewFire e) rest rfl] at h
        exact absurd h (nil_no_split xs c ys)

/-- C7 counterexample: when the governing context is canceled during the
STARTUP jitter wait, `wait` unblocks, but `Start` still proceeds to call
`lock.Acquire` before ever looking at the context again: the claim's "the
loop terminates without performing any further lock-backend call" is false
at the startup jitter wait point.  Here the jitter wait reports
cancellation and the trace nevertheless contains an `Acquire` call after
it. -/
theorem claim_C7_counterexample :
    startRun hcTest .initJitter [.waitCtx, .acq "" none, .tickCtx] =
      (.stopped none, [.jitterCanceled, .acquireCall, .retryCanceled]) := by
  decide

/-- C7 (amended): at every wait point, cancellation of the governing
context unblocks the wait at once, and in any cancellation-priority
environment (`WFcB`) the loop then terminates; after the first observed
cancellation no `Renew` call is ever performed and at most one `Acquire`
call is — and a post-cancellation `Acquire` happens only when the
cancellation was observed at the startup jitter wait, which is followed by
exactly that one `Acquire` before `Start` returns. -/
theorem claim_C7 (hc : HALockController) (hwp : 0 < hc.waitPeriod)
    (hrp : 0 < hc.renewalPeriod) (script : List Ans) (hwf : WFcB script = true)
    (xs : List Act) (c : Act) (ys : List Act)
    (h : (startRun hc .initJitter script).2 = xs ++ c :: ys)
    (hcC : cancelAct c = true) (hxs : ∀ x ∈ xs, cancelAct x = false) :
    (∀ x ∈ ys, x ≠ Act.renewCall) ∧ List.count Act.acquireCall ys ≤ 1 ∧
      (Act.acquireCall ∈ ys → xs = [] ∧ c = Act.jitterCanceled) := by
  have hwp0 : ¬ hc.waitPeriod ≤ 0 := by omega
  cases script with
  | nil =>
    rw [startRun] at h
    exact absurd h (nil_no_split xs c ys)
  | cons a rest =>
    obtain ⟨hwf1, hwfr⟩ := wfcB_cons hwf
    cases a with
    | waitTimer =>
      rw [startRun_cons_some hc _ _ _ _ _
        (by simp [startStep, hwp0] :
          startStep hc .initJitter .waitTimer =
            some (.attempting, [.jitterWait]))] at h
      cases xs with
      | nil =>
        injection h with h1 h2
        rw [← h1] at hcC
        exact absurd hcC (by decide)
      | cons b xs2 =>
        injection h with h1 h2
        have hG := afterCancel hc hwp hrp rest .attempting hwfr (by simp)
          xs2 c ys h2 hcC (fun x hx => hxs x (List.mem_cons_of_mem _ hx))
        refine ⟨fun x hx => (hG x hx).1, ?_, ?_⟩
        · rw [List.count_eq_zero.mpr (fun hmem => (hG _ hmem).2 rfl)]
          omega
        · intro hmem
          exact absurd rfl (hG _ hmem).2
    | waitCtx =>
      rw [startRun_cons_some hc _ _ _ _ _
        (by simp [startStep, hwp0] :
          startStep hc .initJitter .waitCtx =
            some (.attempting, [.jitterCanceled]))] at h
      cases xs with
      | nil =>
        injection h with h1 h2
        obtain ⟨hA1, hA2⟩ := acAttempt hc hwp hrp rest (hwf1 rfl)
        refine ⟨?_, ?_, fun _ => ⟨rfl, h1.symm⟩⟩
        · intro x hx
          rw [← h2] at hx
          exact hA1 x hx
        · rw [← h2]
          exact hA2
      | cons b xs2 =>
        injection h with h1 h2
        have hfb := hxs b (List.mem_cons_self _ _)
        rw [← h1] at hfb
        simp [cancelAct] at hfb
    | acq tok err =>
      rw [startRun_cons_none hc .initJitter (.acq tok err) rest rfl] at h
      exact absurd h (nil_no_split xs c ys)
    | tickCtx =>
      rw [startRun_cons_none hc .initJitter .tickCtx rest rfl] at h
      exact absurd h (nil_no_split xs c ys)
    | tickFire =>
      rw [startRun_cons_none hc .initJitter .tickFire rest rfl] at h
      exact absurd h (nil_no_split xs c ys)
    | renewCtx =>
      rw [startRun_cons_none hc .initJitter .renewCtx rest rfl] at h
      exact absurd h (nil_no_split xs c ys)
    | renewFire e =>
      rw [startRun_cons_none hc .initJitter (.renewFire e) rest rfl] at h
      exact absurd h (nil_no_split xs c ys)

/-- C7 witness: the run of the counterexample trace, decomposed at its
first cancellation mark. -/
theorem claim_C7_witness :
    (∀ x ∈ [Act.acquireCall, Act.retryCanceled], x ≠ Act.renewCall) ∧
    List.count Act.acquireCall [Act.acquireCall, Act.retryCanceled] ≤ 1 ∧
    (Act.acquireCall ∈ [Act.acquireCall, Act.retryCanceled] →
      ([] : List Act) = [] ∧ Act.jitterCanceled = Act.jitterCanceled) :=
  claim_C7 hcTest (by decide) (by decide) [.waitCtx, .acq "" none, .tickCtx]
    (by decide) [] Act.jitterCanceled [Act.acquireCall, Act.retryCanceled]
    (by decide) (by decide) (by intro x hx; simp at hx)

end HA
